import Mathlib

/-
Shallow embedding of the DRC (Design Rule Check) engine of pcbnew
(src/pcbnew/drc/drc.cpp), together with proofs about the embedded code.

External collaborators of the engine (board model, connectivity, rule-file
parsing, the low-level geometry primitives living outside src/) are either
taken as parameters of the embedded drivers or, where a claim depends on
them, modelled from the specification; every such modelling is marked in the
doc comment of the definition.

C++ machine integers are modelled as unbounded Int; C++ `/` on int is the
truncating division `Int.tdiv`.
-/

set_option autoImplicit false

namespace DRC

/-- Violation codes used by the drivers embedded here (subset of the DRCE
codes of the source that the embedded drivers can emit). -/
inductive ErrorCode where
  | netclassClearance
  | netclassTrackwidth
  | netclassViasize
  | netclassViadrillsize
  | netclassViaannulus
  | netclassUViasize
  | netclassUViadrillsize
  | zonesIntersect
  | zonesTooClose
  | padNearPad
  | holeNearPad
  | duplicateFootprint
  | missingFootprint
  | extraFootprint
  deriving DecidableEq, Repr

/-- Integer point (wxPoint / VECTOR2I of the source). -/
structure Pt where
  x : Int
  y : Int
  deriving DecidableEq, Repr

/-- Segment with two endpoints (SEG of the source). -/
structure Seg where
  a : Pt
  b : Pt
  deriving DecidableEq, Repr

/-- Squared Euclidean distance between two points. -/
def dist2 (p q : Pt) : Int :=
  (q.x - p.x) ^ 2 + (q.y - p.y) ^ 2

/-- Integer midpoint `( pt1 + pt2 ) / 2` of the source: wxPoint addition
followed by C++ int division, which truncates toward zero. -/
def midPt (p q : Pt) : Pt :=
  ⟨Int.tdiv (p.x + q.x) 2, Int.tdiv (p.y + q.y) 2⟩

/-- Modelled from the spec: `Mils2iu` is not under src/; §4.9 fixes the
bisection epsilon as "5 mils equivalent", and pcbnew internal units are
nanometres with 25400 nm per mil, so `EPSILON = Mils2iu( 5 ) = 127000`. -/
def EPSILON : Int := 127000

/- ===================== Net classes (drc.cpp 613-741) ===================== -/

/-- Net class constraint bundle (the NETCLASS fields read by doNetClass). -/
structure NETCLASS where
  name : String
  clearance : Int
  trackWidth : Int
  viaDiameter : Int
  viaDrill : Int
  uViaDiameter : Int
  uViaDrill : Int
  deriving DecidableEq, Repr

/-- Board-wide floor settings read by doNetClass
(BOARD_DESIGN_SETTINGS fields). -/
structure BoardDesignSettings where
  minClearance : Int
  trackMinWidth : Int
  viasMinSize : Int
  minThroughDrill : Int
  viasMinAnnulus : Int
  microViasMinSize : Int
  microViasMinDrill : Int
  deriving DecidableEq, Repr

/-- One net-class violation as handed to the marker sink: the code, the
board-wide required floor, the offending class name and the actual value,
mirroring the formatted message of doNetClass. -/
structure NetclassViolation where
  code : ErrorCode
  required : Int
  className : String
  actual : Int
  deriving DecidableEq, Repr

/-- Via annulus as computed at drc.cpp:675:
`( nc->GetViaDiameter() - nc->GetViaDrill() ) / 2` with C++ int division
(truncation toward zero). -/
def ncViaAnnulus (nc : NETCLASS) : Int :=
  Int.tdiv (nc.viaDiameter - nc.viaDrill) 2

/-- The via annulus as the specification words it: `(viaSize - viaDrill) / 2`
"rounded down", that is the mathematical floor of the exact rational value.
Kept separate from `ncViaAnnulus` to compare the two. -/
def ncViaAnnulusSpec (nc : NETCLASS) : Int :=
  Int.fdiv (nc.viaDiameter - nc.viaDrill) 2

/-- One `if` block of doNetClass: when the field is below the floor, append
one violation and clear the ret flag; otherwise leave the accumulator
unchanged. -/
def ncStep (acc : List NetclassViolation × Bool) (cond : Bool)
    (item : NetclassViolation) : List NetclassViolation × Bool :=
  if cond then (acc.1 ++ [item], false) else acc

/-- DRC::doNetClass (drc.cpp 613-720): checks the seven constraint fields of
one class against the board floor in source order, emitting one violation per
failing field and never stopping early; returns the violations handed to the
sink and the `ret` flag (true when no field failed). -/
def doNetClass (g : BoardDesignSettings) (nc : NETCLASS) :
    List NetclassViolation × Bool :=
  ncStep (ncStep (ncStep (ncStep (ncStep (ncStep (ncStep ([], true)
    (decide (nc.clearance < g.minClearance))
    ⟨ErrorCode.netclassClearance, g.minClearance, nc.name, nc.clearance⟩)
    (decide (nc.trackWidth < g.trackMinWidth))
    ⟨ErrorCode.netclassTrackwidth, g.trackMinWidth, nc.name, nc.trackWidth⟩)
    (decide (nc.viaDiameter < g.viasMinSize))
    ⟨ErrorCode.netclassViasize, g.viasMinSize, nc.name, nc.viaDiameter⟩)
    (decide (nc.viaDrill < g.minThroughDrill))
    ⟨ErrorCode.netclassViadrillsize, g.minThroughDrill, nc.name, nc.viaDrill⟩)
    (decide (ncViaAnnulus nc < g.viasMinAnnulus))
    ⟨ErrorCode.netclassViaannulus, g.viasMinAnnulus, nc.name, ncViaAnnulus nc⟩)
    (decide (nc.uViaDiameter < g.microViasMinSize))
    ⟨ErrorCode.netclassUViasize, g.microViasMinSize, nc.name, nc.uViaDiameter⟩)
    (decide (nc.uViaDrill < g.microViasMinDrill))
    ⟨ErrorCode.netclassUViadrillsize, g.microViasMinDrill, nc.name, nc.uViaDrill⟩

/-- DRC::testNetClasses (drc.cpp 723-741): runs doNetClass on the Default
class and then on every user class, and-ing the per-class results; never
stops at the first failing class. -/
def testNetClasses (g : BoardDesignSettings) (defaultClass : NETCLASS)
    (userClasses : List NETCLASS) : List NetclassViolation × Bool :=
  (defaultClass :: userClasses).foldl
    (fun acc nc =>
      let r := doNetClass g nc
      (acc.1 ++ r.1, acc.2 && r.2))
    ([], true)

/- ================ Footprint reconciliation (drc.cpp 1717-1780) ================ -/

/-- Board footprint (MODULE) as read by TestFootprints: an identity and its
reference designator. -/
structure Module where
  id : Nat
  reference : String
  deriving DecidableEq, Repr

/-- Netlist component: reference and value. -/
structure Component where
  reference : String
  value : String
  deriving DecidableEq, Repr

/-- Case-insensitive reference comparison (wxString::CmpNoCase equality). -/
def refEqNoCase (a b : String) : Bool :=
  a.toLower == b.toLower

/-- Footprint discrepancy record (DRC_ITEM built by TestFootprints):
duplicate items carry the two modules, extra items carry the module, missing
items carry only the reference text of the absent component. -/
structure FPItem where
  code : ErrorCode
  itemA : Option Module
  itemB : Option Module
  missingRef : String
  deriving DecidableEq, Repr

/-- The three severity-ignore switches TestFootprints consults
(BOARD_DESIGN_SETTINGS::Ignore per code). -/
structure FPIgnoreFlags where
  duplicateFootprint : Bool
  missingFootprint : Bool
  extraFootprint : Bool
  deriving DecidableEq, Repr

/-- Modelled from the spec: `BOARD::FindModuleByReference` is not under src/;
§4.8 keys footprint reconciliation by case-insensitive reference, so the
lookup returns the first board footprint whose reference matches
case-insensitively. -/
def FindModuleByReference (mods : List Module) (ref : String) : Option Module :=
  mods.find? (fun m => refEqNoCase m.reference ref)

/-- Modelled from the spec: `NETLIST::GetComponentByReference` is not under
src/; §4.8 keys footprint reconciliation by case-insensitive reference. -/
def GetComponentByReference (netlist : List Component) (ref : String) :
    Option Component :=
  netlist.find? (fun c => refEqNoCase c.reference ref)

/-- The duplicate-search loop of TestFootprints (drc.cpp 1728-1742): insert
each board footprint in a set ordered by case-insensitive reference; a failed
insertion emits a duplicate item against the element already in the set (the
first-inserted footprint with that reference). Returns the emitted items and
the final set contents. -/
def dupScan : List Module → List Module → List FPItem × List Module
  | mods, [] => ([], mods)
  | mods, m :: rest =>
    match mods.find? (fun x => refEqNoCase x.reference m.reference) with
    | some first =>
      let r := dupScan mods rest
      (⟨ErrorCode.duplicateFootprint, some m, some first, ""⟩ :: r.1, r.2)
    | none => dupScan (mods ++ [m]) rest

/-- DRC::TestFootprints (drc.cpp 1717-1780): duplicate scan (building the
`mods` set) when duplicate checking is not ignored, then missing-footprint
scan over the netlist, then extra-footprint scan over the `mods` set. When
duplicate checking is ignored the `mods` set stays empty. -/
def TestFootprints (netlist : List Component) (boardModules : List Module)
    (ign : FPIgnoreFlags) : List FPItem :=
  let dupResult :=
    if !ign.duplicateFootprint then dupScan [] boardModules else ([], [])
  let missingItems :=
    if !ign.missingFootprint then
      (netlist.filter
          (fun c => (FindModuleByReference boardModules c.reference).isNone)).map
        (fun c => ⟨ErrorCode.missingFootprint, none, none, c.reference⟩)
    else []
  let extraItems :=
    if !ign.extraFootprint then
      (dupResult.2.filter
          (fun m => (GetComponentByReference netlist m.reference).isNone)).map
        (fun m => ⟨ErrorCode.extraFootprint, some m, none, ""⟩)
    else []
  dupResult.1 ++ missingItems ++ extraItems

/-- Does a footprint discrepancy reference (as its primary item) a footprint
with the given reference, compared case-insensitively? -/
def fpItemRefs (i : FPItem) (ref : String) : Bool :=
  match i.itemA with
  | some mm => refEqNoCase mm.reference ref
  | none => false

/- ==================== Orchestrator (drc.cpp 401-592) ==================== -/

/-- The checks RunTests can perform, in source order. -/
inductive Check where
  | outline
  | netclasses
  | pad2pad
  | drilledHoles
  | zoneFills
  | tracks
  | zones
  | unconnected
  | keepouts
  | copperTextAndGraphics
  | courtyards
  | footprints
  | disabledLayers
  | textVars
  deriving DecidableEq, Repr

/-- The option flags and severity switches RunTests consults. -/
structure DRCOptions where
  doPad2PadTest : Bool
  doUnconnectedTest : Bool
  doZonesTest : Bool
  doKeepoutTest : Bool
  refillZones : Bool
  testFootprints : Bool
  kifaceIsSingle : Bool
  ignoreUnconnectedItems : Bool
  ignoreAllCourtyardCodes : Bool
  ignoreDisabledLayerItem : Bool
  ignoreUnresolvedVariable : Bool
  fpIgnore : FPIgnoreFlags
  deriving DecidableEq, Repr

/-- The board-side inputs RunTests reads: net classes with the board floor,
and the external collaborators consumed as data (the unconnected edge list the
connectivity engine would produce, and the netlist/footprints pair for the
footprint test). -/
structure BoardInput where
  defaultClass : NETCLASS
  userClasses : List NETCLASS
  settings : BoardDesignSettings
  unconnectedEdges : List (Nat × Nat)
  netlist : List Component
  modules : List Module
  deriving DecidableEq, Repr

/-- The run result collections owned by the DRC tool across runs
(m_unconnected, m_footprints, m_drcRun, m_footprintsTested). -/
structure RunState where
  unconnected : List (Nat × Nat)
  footprints : List FPItem
  drcRun : Bool
  footprintsTested : Bool
  deriving DecidableEq, Repr

/-- DRC::testUnconnected (drc.cpp 859-881): clears m_unconnected and rebuilds
it from the connectivity engine's unconnected edges. -/
def testUnconnected (b : BoardInput) (st : RunState) : RunState :=
  { st with unconnected := b.unconnectedEdges }

/-- DRC::RunTests (drc.cpp 401-592): the fixed check sequence. Returns the
list of checks performed and the updated result state. Aborts (plain early
return) right after the net-class check when any class failed; the footprint
list is cleared mid-run and rebuilt when footprint testing is on; the
unconnected list is rebuilt only when the unconnected test is enabled and its
severity not ignored; m_drcRun is set at the end of a completed run. -/
def RunTests (opts : DRCOptions) (b : BoardInput) (st : RunState) :
    List Check × RunState :=
  let checks1 := [Check.outline, Check.netclasses]
  let ncResult := testNetClasses b.settings b.defaultClass b.userClasses
  if ncResult.2 = false then
    (checks1, st)
  else
    let checks2 := checks1 ++ (if opts.doPad2PadTest then [Check.pad2pad] else [])
    let checks3 := checks2 ++ [Check.drilledHoles, Check.zoneFills, Check.tracks, Check.zones]
    let s4 :=
      if opts.doUnconnectedTest && !opts.ignoreUnconnectedItems then
        (checks3 ++ [Check.unconnected], testUnconnected b st)
      else (checks3, st)
    let checks5 := s4.1 ++ (if opts.doKeepoutTest then [Check.keepouts] else [])
    let checks6 := checks5 ++ [Check.copperTextAndGraphics]
    let checks7 := checks6 ++ (if !opts.ignoreAllCourtyardCodes then [Check.courtyards] else [])
    let st7 : RunState := { s4.2 with footprints := [], footprintsTested := false }
    let s8 :=
      if opts.testFootprints && !opts.kifaceIsSingle then
        (checks7 ++ [Check.footprints],
          { st7 with
            footprints := TestFootprints b.netlist b.modules opts.fpIgnore
            footprintsTested := true })
      else (checks7, st7)
    let checks9 := s8.1 ++ (if !opts.ignoreDisabledLayerItem then [Check.disabledLayers] else [])
    let checks10 := checks9 ++ (if !opts.ignoreUnresolvedVariable then [Check.textVars] else [])
    (checks10, { s8.2 with drcRun := true })

/- ============= Zone-to-zone outlines (drc.cpp 183-356) ============= -/

/-- Zone fields read by TestZoneToZoneOutlines. -/
structure Zone where
  id : Nat
  layer : Nat
  netCode : Int
  priority : Int
  isKeepout : Bool
  deriving DecidableEq, Repr

/-- ZONE_CONTAINER::IsOnCopperLayer: the copper layers are ids 0..31. -/
def isOnCopperLayer (z : Zone) : Bool :=
  z.layer ≤ 31

/-- A smoothed polygon outline: the vertices IterateWithHoles yields and the
boundary segments IterateSegmentsWithHoles yields. -/
structure Poly where
  corners : List Pt
  segs : List Seg
  deriving DecidableEq, Repr

/-- The external geometry collaborators of the zone test, taken as
parameters: the precomputed smoothed outline per zone index
(BuildSmoothedPoly), polygon containment (SHAPE_POLY_SET::Contains), the
segment-pair clearance primitive GetClearanceBetweenSegments (returning the
separation and the witness point), and the resolved zone-to-zone clearance
(ZONE_CONTAINER::GetClearance). -/
structure ZoneGeom where
  smoothed : Nat → Poly
  contains : Poly → Pt → Bool
  segClearance : Seg → Seg → Int → Int × Pt
  zoneClearance : Zone → Zone → Int

/-- The pair-skip condition of TestZoneToZoneOutlines (drc.cpp 215-232), in
source order: same zone, different layer, same net code with net code >= 0,
different priority, keepout/non-keepout mismatch. -/
def zonePairSkipped (zoneRef zoneToTest : Zone) : Bool :=
  zoneRef.id == zoneToTest.id
  || !(zoneRef.layer == zoneToTest.layer)
  || (zoneRef.netCode == zoneToTest.netCode && decide (0 ≤ zoneRef.netCode))
  || !(zoneRef.priority == zoneToTest.priority)
  || !(zoneRef.isKeepout == zoneToTest.isKeepout)

/-- The pair-skip condition as the specification words it: same net pairs are
skipped only when the net number is strictly greater than 0. Kept separate
from `zonePairSkipped` to compare the two. -/
def zonePairSkippedSpec (zoneRef zoneToTest : Zone) : Bool :=
  zoneRef.id == zoneToTest.id
  || !(zoneRef.layer == zoneToTest.layer)
  || (zoneRef.netCode == zoneToTest.netCode && decide (0 < zoneRef.netCode))
  || !(zoneRef.priority == zoneToTest.priority)
  || !(zoneRef.isKeepout == zoneToTest.isKeepout)

/-- Clearance used in the zone-to-zone segment test (drc.cpp 239-245): the
resolved clearance, overridden to exactly 1 internal unit when the reference
zone is a keepout. -/
def effectiveZoneClearance (geom : ZoneGeom) (zoneRef zoneToTest : Zone) : Int :=
  if zoneRef.isKeepout then 1 else geom.zoneClearance zoneRef zoneToTest

/-- One update of the `conflictPoints` map (drc.cpp 317-320): keep the
minimum separation seen at each witness point. -/
def conflictInsert (m : List (Pt × Int)) (p : Pt) (d : Int) : List (Pt × Int) :=
  match m with
  | [] => [(p, d)]
  | (q, e) :: rest =>
    if q = p then (q, min e d) :: rest else (q, e) :: conflictInsert rest p d

/-- Lookup in the conflict map. -/
def conflictLookup (p : Pt) : List (Pt × Int) → Option Int
  | [] => none
  | (q, e) :: rest => if q = p then some e else conflictLookup p rest

/-- Minimum of a list of separations, none when empty. -/
def minList : List Int → Option Int
  | [] => none
  | d :: rest =>
    match minList rest with
    | none => some d
    | some e => some (min d e)

/-- Combination of optional minima: the merge the conflict map performs
between an already-recorded separation and new candidates. -/
def optMin : Option Int → Option Int → Option Int
  | none, b => b
  | some a, none => some a
  | some a, some b => some (min a b)

/-- The segment pairs the double loop of drc.cpp 284-323 visits, in
iteration order. -/
def segPairs (refPoly testPoly : Poly) : List (Seg × Seg) :=
  refPoly.segs.bind (fun rs => testPoly.segs.map (fun ts => (rs, ts)))

/-- The conflict map built by the double segment loop (drc.cpp 282-323): for
every segment pair whose separation (as GetClearanceBetweenSegments reports
it, test segment first) is below the clearance, record the witness point with
the minimum separation seen there. -/
def zonePairConflicts (geom : ZoneGeom) (refPoly testPoly : Poly)
    (clearance : Int) : List (Pt × Int) :=
  (segPairs refPoly testPoly).foldl
    (fun m rt =>
      let r := geom.segClearance rt.2 rt.1 clearance
      if r.1 < clearance then conflictInsert m r.2 r.1 else m)
    []

/-- All separations recorded at witness point `p` by the double loop, in
iteration order. -/
def conflictCandidates (geom : ZoneGeom) (refPoly testPoly : Poly)
    (clearance : Int) (p : Pt) : List Int :=
  (segPairs refPoly testPoly).filterMap
    (fun rt =>
      let r := geom.segClearance rt.2 rt.1 clearance
      if r.1 < clearance ∧ r.2 = p then some r.1 else none)

/-- A zone-test marker as handed to the sink: code, the two zone ids in the
order SetItems receives them, the marker position, and the formatted message
payload (required clearance, actual separation) when one is formatted. -/
structure ZoneMarker where
  code : ErrorCode
  itemA : Nat
  itemB : Nat
  pos : Pt
  msg : Option (Int × Int)
  deriving DecidableEq, Repr

/-- Marker built for one deduplicated conflict point (drc.cpp 325-351): a
separation <= 0 yields an intersection violation with no formatted message, a
positive separation yields a too-close violation whose message carries the
clearance and the measured separation. -/
def conflictMarker (zoneRef zoneToTest : Zone) (clearance : Int)
    (c : Pt × Int) : ZoneMarker :=
  if c.2 ≤ 0 then
    ⟨ErrorCode.zonesIntersect, zoneRef.id, zoneToTest.id, c.1, none⟩
  else
    ⟨ErrorCode.zonesTooClose, zoneRef.id, zoneToTest.id, c.1, some (clearance, c.2)⟩

/-- Processing of one surviving zone pair (drc.cpp 234-351): corner
containment both ways (intersection violations at the contained vertices),
then the deduplicated segment-separation conflicts. -/
def processZonePair (geom : ZoneGeom) (ia ia2 : Nat) (zoneRef zoneToTest : Zone) :
    List ZoneMarker :=
  let refPoly := geom.smoothed ia
  let testPoly := geom.smoothed ia2
  let clearance := effectiveZoneClearance geom zoneRef zoneToTest
  let cornerA := (refPoly.corners.filter (fun v => geom.contains testPoly v)).map
    (fun v => (⟨ErrorCode.zonesIntersect, zoneRef.id, zoneToTest.id, v, none⟩ : ZoneMarker))
  let cornerB := (testPoly.corners.filter (fun v => geom.contains refPoly v)).map
    (fun v => (⟨ErrorCode.zonesIntersect, zoneToTest.id, zoneRef.id, v, none⟩ : ZoneMarker))
  let conflicts := zonePairConflicts geom refPoly testPoly clearance
  cornerA ++ cornerB ++ conflicts.map (conflictMarker zoneRef zoneToTest clearance)

/-- The index pairs (ia, ia2) with ia2 > ia that survive the skip conditions
of TestZoneToZoneOutlines (drc.cpp 202-232), in loop order. -/
def survivingPairs (zones : List Zone) : List (Nat × Nat) :=
  (List.range zones.length).bind (fun ia =>
    match zones[ia]? with
    | none => []
    | some zoneRef =>
      if isOnCopperLayer zoneRef then
        (List.range' (ia + 1) (zones.length - (ia + 1))).bind (fun ia2 =>
          match zones[ia2]? with
          | none => []
          | some zoneToTest =>
            if zonePairSkipped zoneRef zoneToTest then [] else [(ia, ia2)])
      else [])

/-- DRC::TestZoneToZoneOutlines (drc.cpp 183-356): process every surviving
zone pair. -/
def TestZoneToZoneOutlines (geom : ZoneGeom) (zones : List Zone) :
    List ZoneMarker :=
  (survivingPairs zones).bind (fun p =>
    match zones[p.1]?, zones[p.2]? with
    | some zoneRef, some zoneToTest => processZonePair geom p.1 p.2 zoneRef zoneToTest
    | some _, none => []
    | none, some _ => []
    | none, none => [])

/- ================= Pad-to-pad checker (drc.cpp 744-775, 1539-1706) ================= -/

/-- Drill hole shapes (PAD_DRILL_SHAPE_T). -/
inductive DrillShape where
  | circle
  | oblong
  deriving DecidableEq, Repr

/-- Pad fields read by testPad2Pad / doPadToPadsDrc. `layerSet` is the layer
bitmask, `boundingRadius` the radius of the minimum circle containing the pad
shape, `clearance` the resolved clearance GetClearance(nullptr) returns for
this pad. -/
structure Pad where
  id : Nat
  x : Int
  y : Int
  layerSet : Nat
  drillW : Int
  drillH : Int
  drillShape : DrillShape
  orientation : Int
  netCode : Int
  parent : Nat
  padName : String
  boundingRadius : Int
  clearance : Int
  deriving DecidableEq, Repr

/-- Squared distance between two pad positions. -/
def padDist2 (p q : Pad) : Int :=
  (q.x - p.x) ^ 2 + (q.y - p.y) ^ 2

/-- Modelled from the spec: `DRC::checkClearancePadToPad` is not under src/.
Per §4.1 and §8 each pad's shape is contained in the bounding circle of
radius `boundingRadius` about its position and the test passes exactly when
the shape separation is at least the clearance; pads are modelled as their
bounding disks, so the test passes iff
`(clearance + rA + rB)^2 <= squared center distance`. -/
def checkClearancePadToPad (aRefPad aPad : Pad) (minClearance : Int) : Bool :=
  decide ((minClearance + aRefPad.boundingRadius + aPad.boundingRadius) ^ 2
    ≤ padDist2 aRefPad aPad)

/-- Reported actual separation for a failed pad check (the out-parameter of
checkClearancePadToPad in the bounding-disk model). -/
def padActualValue (a b : Pad) : Int :=
  (Nat.sqrt (padDist2 a b).toNat : Int) - a.boundingRadius - b.boundingRadius

/-- The dummy pad of doPadToPadsDrc (drc.cpp 1551-1555, 1598-1602, 1628-1632):
placed at the host pad's position, sized and shaped like its drill hole, on
all copper layers. Its bounding radius (D_PAD::GetBoundingRadius is not under
src/) is half the larger drill dimension, the radius of the circle or oval
the code builds. -/
def dummyPadFor (p : Pad) (allCu : Nat) : Pad where
  id := p.id
  x := p.x
  y := p.y
  layerSet := allCu
  drillW := 0
  drillH := 0
  drillShape := DrillShape.circle
  orientation := p.orientation
  netCode := 0
  parent := p.parent
  padName := p.padName
  boundingRadius := Int.tdiv (max p.drillW p.drillH) 2
  clearance := 0

/-- The same-hole acceptance test of drc.cpp 1580-1590: holes at the same
position with the same drill size and shape are accepted when the hole is
round, or when the two pads additionally share their orientation. -/
def padsAcceptedSameHole (aRefPad pad : Pad) : Bool :=
  decide (pad.x = aRefPad.x ∧ pad.y = aRefPad.y
      ∧ pad.drillW = aRefPad.drillW ∧ pad.drillH = aRefPad.drillH
      ∧ pad.drillShape = aRefPad.drillShape)
  && (decide (aRefPad.drillShape = DrillShape.circle)
      || decide (pad.orientation = aRefPad.orientation))

/-- A pad-test marker as handed to the sink: code, the two pad ids in the
order SetItems receives them, the marker position and the message payload
(resolved clearance, reported actual). -/
structure PadMarker where
  code : ErrorCode
  itemA : Nat
  itemB : Nat
  pos : Pt
  msg : Option (Int × Int)
  deriving DecidableEq, Repr

/-- DRC::doPadToPadsDrc (drc.cpp 1539-1706), with the sorted-scan early exit
optionally disabled (`useLimit = false` removes only the
`pad->GetPosition().x > x_limit` break, everything else identical). Returns
the C++ return value and the markers handed to the sink; the function stops
at the first insufficient clearance. -/
def doPadToPadsDrcCore (useLimit : Bool) (allCu : Nat) (aRefPad : Pad)
    (xLimit : Int) : List Pad → Bool × List PadMarker
  | [] => (true, [])
  | pad :: rest =>
    if pad.id = aRefPad.id then
      doPadToPadsDrcCore useLimit allCu aRefPad xLimit rest
    else if useLimit ∧ xLimit < pad.x then
      (true, [])
    else
      let layerMask := Nat.land aRefPad.layerSet allCu
      if Nat.land pad.layerSet layerMask = 0 ∧ Nat.land pad.layerSet allCu ≠ 0
          ∧ Nat.land aRefPad.layerSet allCu ≠ 0 then
        if padsAcceptedSameHole aRefPad pad then
          doPadToPadsDrcCore useLimit allCu aRefPad xLimit rest
        else if pad.drillW ≠ 0
            ∧ checkClearancePadToPad aRefPad (dummyPadFor pad allCu) aRefPad.clearance
              = false then
          (false, [⟨ErrorCode.holeNearPad, pad.id, aRefPad.id, ⟨pad.x, pad.y⟩,
            some (aRefPad.clearance, padActualValue aRefPad (dummyPadFor pad allCu))⟩])
        else if aRefPad.drillW ≠ 0
            ∧ checkClearancePadToPad pad (dummyPadFor aRefPad allCu) pad.clearance
              = false then
          (false, [⟨ErrorCode.holeNearPad, aRefPad.id, pad.id, ⟨aRefPad.x, aRefPad.y⟩,
            some (pad.clearance, padActualValue pad (dummyPadFor aRefPad allCu))⟩])
        else
          doPadToPadsDrcCore useLimit allCu aRefPad xLimit rest
      else if pad.netCode ≠ 0 ∧ aRefPad.netCode = pad.netCode then
        doPadToPadsDrcCore useLimit allCu aRefPad xLimit rest
      else if pad.parent = aRefPad.parent ∧ pad.padName = aRefPad.padName then
        doPadToPadsDrcCore useLimit allCu aRefPad xLimit rest
      else if (Nat.land pad.layerSet layerMask = 0 ∧ pad.drillW = 0)
          ∨ (Nat.land aRefPad.layerSet layerMask = 0 ∧ aRefPad.drillW = 0) then
        doPadToPadsDrcCore useLimit allCu aRefPad xLimit rest
      else if checkClearancePadToPad aRefPad pad aRefPad.clearance = false then
        (false, [⟨ErrorCode.padNearPad, aRefPad.id, pad.id, ⟨aRefPad.x, aRefPad.y⟩,
          some (aRefPad.clearance, padActualValue aRefPad pad)⟩])
      else
        doPadToPadsDrcCore useLimit allCu aRefPad xLimit rest

/-- doPadToPadsDrc exactly as in the source (with the sorted-scan break). -/
def doPadToPadsDrc (allCu : Nat) (aRefPad : Pad) (xLimit : Int)
    (pads : List Pad) : Bool × List PadMarker :=
  doPadToPadsDrcCore true allCu aRefPad xLimit pads

/-- doPadToPadsDrc with only the sorted-scan break removed, for comparison
with the bounded scan. -/
def doPadToPadsDrcNoLimit (allCu : Nat) (aRefPad : Pad) (xLimit : Int)
    (pads : List Pad) : Bool × List PadMarker :=
  doPadToPadsDrcCore false allCu aRefPad xLimit pads

/-- The max-bounding-radius computation of testPad2Pad (drc.cpp 753-763). -/
def maxBoundingRadius (pads : List Pad) : Int :=
  pads.foldl (fun m p => if m < p.boundingRadius then p.boundingRadius else m) 0

/-- The per-reference-pad loop of testPad2Pad (drc.cpp 769-774): each pad is
tested against the tail of the sorted list starting at itself, with
`x_limit = clearance + boundingRadius + x` plus the maximum bounding radius. -/
def testPad2PadAux (allCu : Nat) (maxSize : Int) : List Pad → List PadMarker
  | [] => []
  | pad :: rest =>
    let xLimit := pad.clearance + pad.boundingRadius + pad.x
    (doPadToPadsDrc allCu pad (maxSize + xLimit) (pad :: rest)).2
      ++ testPad2PadAux allCu maxSize rest

/-- DRC::testPad2Pad (drc.cpp 744-775) over the already-sorted pad list. -/
def testPad2Pad (allCu : Nat) (sortedPads : List Pad) : List PadMarker :=
  match sortedPads with
  | [] => []
  | _ => testPad2PadAux allCu (maxBoundingRadius sortedPads) sortedPads

/- ============== Marker-location bisection (drc.cpp 1789, 1825-1841) ============== -/

set_option maxHeartbeats 1600000 in
/-- DRC::getLocation for a conflicting segment (drc.cpp 1825-1841),
instrumented with an iteration counter: bisect between the track's endpoints,
keeping the half whose endpoint is closer to the conflicting shape (`sq` is
the external SEG::SquaredDistance to that shape), until the remaining length
is at most EPSILON; the comparison `GetLineLength( pt1, pt2 ) > EPSILON` is
the squared comparison `EPSILON^2 < dist2 pt1 pt2`. -/
def getLocationAux (sq : Pt → Int) (pt1 pt2 : Pt) : Pt × Nat :=
  if h : EPSILON ^ 2 < dist2 pt1 pt2 then
    if sq pt1 < sq pt2 then
      let r := getLocationAux sq pt1 (midPt pt1 pt2)
      (r.1, r.2 + 1)
    else
      let r := getLocationAux sq (midPt pt1 pt2) pt2
      (r.1, r.2 + 1)
  else (pt1, 0)
termination_by (dist2 pt1 pt2).toNat
decreasing_by
  all_goals
    first
    | (have qx := Int.tdiv_add_tmod (pt1.x + pt2.x) 2
       have qy := Int.tdiv_add_tmod (pt1.y + pt2.y) 2
       have bx : -1 ≤ Int.tmod (pt1.x + pt2.x) 2 ∧ Int.tmod (pt1.x + pt2.x) 2 ≤ 1 := by
         rcases le_or_lt 0 (pt1.x + pt2.x) with hs | hs
         · rw [Int.tmod_eq_emod hs (by norm_num)]
           have e4 := Int.emod_nonneg (pt1.x + pt2.x) (by norm_num : (2:Int) ≠ 0)
           have e5 := Int.emod_lt_of_pos (pt1.x + pt2.x) (by norm_num : (0:Int) < 2)
           omega
         · have q2 := Int.tdiv_add_tmod (-(pt1.x + pt2.x)) 2
           rw [Int.neg_tdiv] at q2
           rw [Int.tmod_eq_emod (by omega) (by norm_num)] at q2
           have e4 := Int.emod_nonneg (-(pt1.x + pt2.x)) (by norm_num : (2:Int) ≠ 0)
           have e5 := Int.emod_lt_of_pos (-(pt1.x + pt2.x)) (by norm_num : (0:Int) < 2)
           omega
       have bY : -1 ≤ Int.tmod (pt1.y + pt2.y) 2 ∧ Int.tmod (pt1.y + pt2.y) 2 ≤ 1 := by
         rcases le_or_lt 0 (pt1.y + pt2.y) with hs | hs
         · rw [Int.tmod_eq_emod hs (by norm_num)]
           have e4 := Int.emod_nonneg (pt1.y + pt2.y) (by norm_num : (2:Int) ≠ 0)
           have e5 := Int.emod_lt_of_pos (pt1.y + pt2.y) (by norm_num : (0:Int) < 2)
           omega
         · have q2 := Int.tdiv_add_tmod (-(pt1.y + pt2.y)) 2
           rw [Int.neg_tdiv] at q2
           rw [Int.tmod_eq_emod (by omega) (by norm_num)] at q2
           have e4 := Int.emod_nonneg (-(pt1.y + pt2.y)) (by norm_num : (2:Int) ≠ 0)
           have e5 := Int.emod_lt_of_pos (-(pt1.y + pt2.y)) (by norm_num : (0:Int) < 2)
           omega
       have hEp : (16129000000 : Int) < dist2 pt1 pt2 := by
         have : EPSILON ^ 2 = (16129000000 : Int) := by norm_num [EPSILON]
         omega
       have hdx : 2 * (Int.tdiv (pt1.x + pt2.x) 2 - pt1.x)
           = (pt2.x - pt1.x) - Int.tmod (pt1.x + pt2.x) 2 := by omega
       have hdy : 2 * (Int.tdiv (pt1.y + pt2.y) 2 - pt1.y)
           = (pt2.y - pt1.y) - Int.tmod (pt1.y + pt2.y) 2 := by omega
       have hex : 2 * (pt2.x - Int.tdiv (pt1.x + pt2.x) 2)
           = (pt2.x - pt1.x) + Int.tmod (pt1.x + pt2.x) 2 := by omega
       have hey : 2 * (pt2.y - Int.tdiv (pt1.y + pt2.y) 2)
           = (pt2.y - pt1.y) + Int.tmod (pt1.y + pt2.y) 2 := by omega
       have sqx : Int.tmod (pt1.x + pt2.x) 2 ^ 2 ≤ 1 := by nlinarith [bx.1, bx.2]
       have sqy : Int.tmod (pt1.y + pt2.y) 2 ^ 2 ≤ 1 := by nlinarith [bY.1, bY.2]
       have hd2 : dist2 pt1 pt2 = (pt2.x - pt1.x) ^ 2 + (pt2.y - pt1.y) ^ 2 := rfl
       have hdx2 : 4 * (Int.tdiv (pt1.x + pt2.x) 2 - pt1.x) ^ 2
           = ((pt2.x - pt1.x) - Int.tmod (pt1.x + pt2.x) 2) ^ 2 := by
         rw [← hdx]; ring
       have hdy2 : 4 * (Int.tdiv (pt1.y + pt2.y) 2 - pt1.y) ^ 2
           = ((pt2.y - pt1.y) - Int.tmod (pt1.y + pt2.y) 2) ^ 2 := by
         rw [← hdy]; ring
       have hex2 : 4 * (pt2.x - Int.tdiv (pt1.x + pt2.x) 2) ^ 2
           = ((pt2.x - pt1.x) + Int.tmod (pt1.x + pt2.x) 2) ^ 2 := by
         rw [← hex]; ring
       have hey2 : 4 * (pt2.y - Int.tdiv (pt1.y + pt2.y) 2) ^ 2
           = ((pt2.y - pt1.y) + Int.tmod (pt1.y + pt2.y) 2) ^ 2 := by
         rw [← hey]; ring
       have key1 : dist2 pt1 (midPt pt1 pt2) < dist2 pt1 pt2 := by
         simp only [dist2, midPt]
         nlinarith [hdx2, hdy2, sqx, sqy, hEp, hd2,
           sq_nonneg ((pt2.x - pt1.x) + Int.tmod (pt1.x + pt2.x) 2),
           sq_nonneg ((pt2.y - pt1.y) + Int.tmod (pt1.y + pt2.y) 2)]
       have key2 : dist2 (midPt pt1 pt2) pt2 < dist2 pt1 pt2 := by
         simp only [dist2, midPt]
         nlinarith [hex2, hey2, sqx, sqy, hEp, hd2,
           sq_nonneg ((pt2.x - pt1.x) - Int.tmod (pt1.x + pt2.x) 2),
           sq_nonneg ((pt2.y - pt1.y) - Int.tmod (pt1.y + pt2.y) 2)]
       have pos : 0 < dist2 pt1 pt2 := by omega
       omega)

/-- The point DRC::getLocation returns. -/
def getLocation (sq : Pt → Int) (pt1 pt2 : Pt) : Pt :=
  (getLocationAux sq pt1 pt2).1

/-- Number of bisection iterations DRC::getLocation performs. -/
def getLocationSteps (sq : Pt → Int) (pt1 pt2 : Pt) : Nat :=
  (getLocationAux sq pt1 pt2).2

/-- The exact point of the original track at rational parameter `t`
(coordinates in ℚ), used to state how far the bisection iterates drift from
the track. -/
def segPointQ (p1 p2 : Pt) (t : ℚ) : ℚ × ℚ :=
  ((1 - t) * (p1.x : ℚ) + t * (p2.x : ℚ), (1 - t) * (p1.y : ℚ) + t * (p2.y : ℚ))

/- ======================= Theorems ======================= -/

/-- The skip flag of the zone pair loop, unfolded to a proposition. -/
theorem zonePairSkipped_eq_false_iff (z1 z2 : Zone) :
    zonePairSkipped z1 z2 = false ↔
      z1.id ≠ z2.id ∧ z1.layer = z2.layer
      ∧ ¬(z1.netCode = z2.netCode ∧ 0 ≤ z1.netCode)
      ∧ z1.priority = z2.priority ∧ z1.isKeepout = z2.isKeepout := by
  simp [zonePairSkipped, not_and, and_assoc]

/-- The violation list of one doNetClass block grows by exactly the failing
field's violation. -/
theorem ncStep_fst (acc : List NetclassViolation × Bool) (cond : Bool)
    (item : NetclassViolation) :
    (ncStep acc cond item).1 = acc.1 ++ (if cond then [item] else []) := by
  cases cond <;> simp [ncStep]

/-- The ret flag of one doNetClass block. -/
theorem ncStep_snd (acc : List NetclassViolation × Bool) (cond : Bool)
    (item : NetclassViolation) :
    (ncStep acc cond item).2 = (acc.2 && !cond) := by
  cases cond <;> simp [ncStep]

/-- Shape of the doNetClass output: one violation per failing field, in
field order. -/
theorem doNetClass_items (g : BoardDesignSettings) (nc : NETCLASS) :
    (doNetClass g nc).1 =
      (if nc.clearance < g.minClearance then
        [⟨ErrorCode.netclassClearance, g.minClearance, nc.name, nc.clearance⟩] else []) ++
      (if nc.trackWidth < g.trackMinWidth then
        [⟨ErrorCode.netclassTrackwidth, g.trackMinWidth, nc.name, nc.trackWidth⟩] else []) ++
      (if nc.viaDiameter < g.viasMinSize then
        [⟨ErrorCode.netclassViasize, g.viasMinSize, nc.name, nc.viaDiameter⟩] else []) ++
      (if nc.viaDrill < g.minThroughDrill then
        [⟨ErrorCode.netclassViadrillsize, g.minThroughDrill, nc.name, nc.viaDrill⟩] else []) ++
      (if ncViaAnnulus nc < g.viasMinAnnulus then
        [⟨ErrorCode.netclassViaannulus, g.viasMinAnnulus, nc.name, ncViaAnnulus nc⟩] else []) ++
      (if nc.uViaDiameter < g.microViasMinSize then
        [⟨ErrorCode.netclassUViasize, g.microViasMinSize, nc.name, nc.uViaDiameter⟩] else []) ++
      (if nc.uViaDrill < g.microViasMinDrill then
        [⟨ErrorCode.netclassUViadrillsize, g.microViasMinDrill, nc.name, nc.uViaDrill⟩] else []) := by
  simp only [doNetClass, ncStep_fst, decide_eq_true_eq, List.nil_append, List.append_assoc]

/-- The ret flag of doNetClass is true exactly when no violation was
emitted. -/
theorem doNetClass_ret (g : BoardDesignSettings) (nc : NETCLASS) :
    (doNetClass g nc).2 = (doNetClass g nc).1.isEmpty := by
  simp only [doNetClass, ncStep_fst, ncStep_snd, List.nil_append, Bool.true_and]
  rcases h1 : decide (nc.clearance < g.minClearance) <;>
    rcases h2 : decide (nc.trackWidth < g.trackMinWidth) <;>
    rcases h3 : decide (nc.viaDiameter < g.viasMinSize) <;>
    rcases h4 : decide (nc.viaDrill < g.minThroughDrill) <;>
    rcases h5 : decide (ncViaAnnulus nc < g.viasMinAnnulus) <;>
    rcases h6 : decide (nc.uViaDiameter < g.microViasMinSize) <;>
    rcases h7 : decide (nc.uViaDrill < g.microViasMinDrill) <;>
    simp

/-- C9 counterexample: with board minimum annulus 0, a class with via size 0
and via drill 1 has floor annulus -1 < 0 (a violation according to the
claim), yet the code computes (0 - 1) / 2 with truncation toward zero,
obtains annulus 0 and emits no via-annulus violation. -/
theorem via_annulus_rounding_counterexample :
    ncViaAnnulusSpec ⟨"Default", 0, 0, 0, 1, 0, 0⟩
        < (⟨-1000, -1000, -1000, -1000, 0, -1000, -1000⟩ : BoardDesignSettings).viasMinAnnulus
    ∧ (doNetClass ⟨-1000, -1000, -1000, -1000, 0, -1000, -1000⟩
          ⟨"Default", 0, 0, 0, 1, 0, 0⟩).1.filter
        (fun v => decide (v.code = ErrorCode.netclassViaannulus)) = [] := by
  decide

/-- C9 (amended): the via annulus used by the net-class check is
`(viaSize - viaDrill) / 2` rounded toward zero (C++ truncating division),
which agrees with the mathematical floor whenever the drill does not exceed
the via size; a via-annulus violation is emitted exactly when this truncated
annulus is below the board minimum annulus, and it carries the floor, the
class name and the annulus. -/
theorem via_annulus_truncation (g : BoardDesignSettings) (nc : NETCLASS) :
    ((doNetClass g nc).1.filter (fun v => decide (v.code = ErrorCode.netclassViaannulus))
        = if ncViaAnnulus nc < g.viasMinAnnulus then
            [⟨ErrorCode.netclassViaannulus, g.viasMinAnnulus, nc.name, ncViaAnnulus nc⟩]
          else [])
    ∧ (nc.viaDrill ≤ nc.viaDiameter → ncViaAnnulus nc = ncViaAnnulusSpec nc) := by
  constructor
  · rw [doNetClass_items]
    simp only [List.filter_append, apply_ite (List.filter
      (fun v : NetclassViolation => decide (v.code = ErrorCode.netclassViaannulus)))]
    simp [List.filter]
  · intro h
    unfold ncViaAnnulus ncViaAnnulusSpec
    rw [Int.tdiv_eq_ediv (by omega) (by norm_num), Int.fdiv_eq_ediv _ (by norm_num)]

/-- Witness for the amended C9 theorem at a concrete class. -/
theorem via_annulus_truncation_witness :
    ncViaAnnulus ⟨"Default", 10, 10, 10, 4, 10, 10⟩
      = ncViaAnnulusSpec ⟨"Default", 10, 10, 10, 4, 10, 10⟩ :=
  (via_annulus_truncation ⟨0, 0, 0, 0, 0, 0, 0⟩ ⟨"Default", 10, 10, 10, 4, 10, 10⟩).2
    (by decide)

/-- C4 counterexample: two distinct non-keepout zones on the same copper
layer with the same priority and the same net code 0 are skipped by the code
(the test is net code >= 0), while the claimed condition (net number > 0)
says the pair is subjected to the tests. -/
theorem zone_pair_skip_counterexample :
    zonePairSkipped ⟨0, 0, 0, 0, false⟩ ⟨1, 0, 0, 0, false⟩ = true
    ∧ zonePairSkippedSpec ⟨0, 0, 0, 0, false⟩ ⟨1, 0, 0, 0, false⟩ = false
    ∧ survivingPairs [⟨0, 0, 0, 0, false⟩, ⟨1, 0, 0, 0, false⟩] = [] := by
  decide

/-- C4 (amended): the zone-to-zone checker tests the ordered pair (ia, ia2)
exactly when both indices are in range with ia < ia2, the reference zone is
on copper, and none of the skip conditions holds, where the same-net skip
applies to net codes >= 0 (so also to net 0). -/
theorem zone_pair_skip_characterization (zones : List Zone) (ia ia2 : Nat) :
    (ia, ia2) ∈ survivingPairs zones ↔
      ∃ zoneRef zoneToTest, zones[ia]? = some zoneRef ∧ zones[ia2]? = some zoneToTest
        ∧ ia < ia2 ∧ isOnCopperLayer zoneRef = true
        ∧ zoneRef.id ≠ zoneToTest.id
        ∧ zoneRef.layer = zoneToTest.layer
        ∧ ¬(zoneRef.netCode = zoneToTest.netCode ∧ 0 ≤ zoneRef.netCode)
        ∧ zoneRef.priority = zoneToTest.priority
        ∧ zoneRef.isKeepout = zoneToTest.isKeepout := by
  constructor
  · intro h
    simp only [survivingPairs, List.mem_bind, List.mem_range] at h
    obtain ⟨i, hi, h⟩ := h
    cases hz1 : zones[i]? with
    | none => simp only [hz1] at h; simp at h
    | some z1 =>
      simp only [hz1] at h
      by_cases hcu : isOnCopperLayer z1 = true
      · rw [if_pos hcu] at h
        simp only [List.mem_bind, List.mem_range'_1] at h
        obtain ⟨j, hj, h⟩ := h
        cases hz2 : zones[j]? with
        | none => simp only [hz2] at h; simp at h
        | some z2 =>
          simp only [hz2] at h
          by_cases hskip : zonePairSkipped z1 z2 = true
          · rw [if_pos hskip] at h; simp at h
          · rw [if_neg hskip] at h
            simp only [List.mem_singleton, Prod.mk.injEq] at h
            obtain ⟨rfl, rfl⟩ := h
            have hs := (zonePairSkipped_eq_false_iff z1 z2).mp (by simpa using hskip)
            exact ⟨z1, z2, hz1, hz2, by omega, hcu, hs.1, hs.2.1, hs.2.2.1,
              hs.2.2.2.1, hs.2.2.2.2⟩
      · rw [if_neg hcu] at h
        simp at h
  · rintro ⟨z1, z2, hz1, hz2, hlt, hcu, h1, h2, h3, h4, h5⟩
    have hi : ia < zones.length := (List.getElem?_eq_some.mp hz1).1
    have hj : ia2 < zones.length := (List.getElem?_eq_some.mp hz2).1
    have hsk : zonePairSkipped z1 z2 = false :=
      (zonePairSkipped_eq_false_iff z1 z2).mpr ⟨h1, h2, h3, h4, h5⟩
    simp only [survivingPairs, List.mem_bind, List.mem_range]
    refine ⟨ia, hi, ?_⟩
    simp only [hz1]
    rw [if_pos hcu]
    simp only [List.mem_bind, List.mem_range'_1]
    refine ⟨ia2, ⟨by omega, by omega⟩, ?_⟩
    simp only [hz2]
    rw [if_neg (by simp [hsk])]
    simp

/-- Witness for the amended C4 theorem: a concrete surviving pair. -/
theorem zone_pair_skip_characterization_witness :
    (0, 1) ∈ survivingPairs [⟨0, 0, 5, 0, false⟩, ⟨1, 0, 6, 0, false⟩] :=
  (zone_pair_skip_characterization [⟨0, 0, 5, 0, false⟩, ⟨1, 0, 6, 0, false⟩] 0 1).mpr
    ⟨⟨0, 0, 5, 0, false⟩, ⟨1, 0, 6, 0, false⟩, by decide, by decide, by decide,
      by decide, by decide, by decide, by decide, by decide, by decide⟩

/-- C5: one invocation of doPadToPadsDrc hands at most one violation to the
sink, stopping at the first insufficient clearance, and it returns false
exactly when a violation was emitted. -/
theorem pad_scan_single_violation (allCu : Nat) (aRefPad : Pad) (xLimit : Int)
    (pads : List Pad) :
    (doPadToPadsDrc allCu aRefPad xLimit pads).2.length ≤ 1
    ∧ ((doPadToPadsDrc allCu aRefPad xLimit pads).1 = false
        ↔ (doPadToPadsDrc allCu aRefPad xLimit pads).2.length = 1) := by
  unfold doPadToPadsDrc
  induction pads with
  | nil => simp [doPadToPadsDrcCore]
  | cons p rest ih =>
    simp only [doPadToPadsDrcCore]
    split_ifs <;> simp_all

/-- The net-class fold accumulates per-class violations in order and
and-combines the per-class ret flags. -/
theorem testNetClasses_foldl (g : BoardDesignSettings) :
    ∀ (l : List NETCLASS) (acc : List NetclassViolation × Bool),
      l.foldl (fun acc nc =>
          let r := doNetClass g nc
          (acc.1 ++ r.1, acc.2 && r.2)) acc
        = (acc.1 ++ (l.map (fun nc => (doNetClass g nc).1)).join,
           acc.2 && l.all (fun nc => (doNetClass g nc).2)) := by
  intro l
  induction l with
  | nil => intro acc; simp
  | cons nc rest ih =>
    intro acc
    simp only [List.foldl_cons, ih, List.map_cons, List.join, List.all_cons]
    simp [Bool.and_assoc]

/-- C1: the net-class conformance check is thorough and fatal. Per class,
doNetClass emits exactly one violation per constraint field below the board
floor, in field order over all 7 fields, and its ret flag is true exactly
when no field failed; testNetClasses accumulates this over the Default class
and every user class without stopping early; and when any class failed,
RunTests performs no check after the net-class check and returns cleanly with
the result state untouched. -/
theorem netclass_conformance_thorough_and_aborts_run :
    (∀ g nc, ((doNetClass g nc).1.map (fun v => v.code) =
        (if nc.clearance < g.minClearance then [ErrorCode.netclassClearance] else []) ++
        (if nc.trackWidth < g.trackMinWidth then [ErrorCode.netclassTrackwidth] else []) ++
        (if nc.viaDiameter < g.viasMinSize then [ErrorCode.netclassViasize] else []) ++
        (if nc.viaDrill < g.minThroughDrill then [ErrorCode.netclassViadrillsize] else []) ++
        (if ncViaAnnulus nc < g.viasMinAnnulus then [ErrorCode.netclassViaannulus] else []) ++
        (if nc.uViaDiameter < g.microViasMinSize then [ErrorCode.netclassUViasize] else []) ++
        (if nc.uViaDrill < g.microViasMinDrill then [ErrorCode.netclassUViadrillsize] else []))
      ∧ ((doNetClass g nc).2 = true ↔ (doNetClass g nc).1 = []))
    ∧ (∀ g d cs, (testNetClasses g d cs).1
          = ((d :: cs).map (fun nc => (doNetClass g nc).1)).join
        ∧ ((testNetClasses g d cs).2 = true ↔ ∀ nc ∈ d :: cs, (doNetClass g nc).1 = []))
    ∧ (∀ opts b st, (testNetClasses b.settings b.defaultClass b.userClasses).2 = false →
        RunTests opts b st = ([Check.outline, Check.netclasses], st)) := by
  refine ⟨fun g nc => ⟨?_, ?_⟩, fun g d cs => ⟨?_, ?_⟩, fun opts b st h => ?_⟩
  · rw [doNetClass_items]
    simp only [List.map_append,
      apply_ite (List.map (fun v : NetclassViolation => v.code))]
    simp
  · rw [doNetClass_ret]
    simp [List.isEmpty_iff]
  · simp [testNetClasses, testNetClasses_foldl g (d :: cs) ([], true)]
  · unfold testNetClasses
    rw [testNetClasses_foldl g (d :: cs) ([], true)]
    simp only [List.nil_append, Bool.true_and, List.all_eq_true]
    constructor
    · intro h nc hnc
      have := h nc hnc
      rw [doNetClass_ret, List.isEmpty_iff] at this
      exact this
    · intro h nc hnc
      rw [doNetClass_ret, List.isEmpty_iff]
      exact h nc hnc
  · simp [RunTests, h]

/-- Witness for the C1 theorem: a concrete run aborted by a net-class
violation. -/
theorem netclass_conformance_witness :
    RunTests
      ⟨false, false, false, false, false, false, true, false, true, true, true,
        ⟨true, true, true⟩⟩
      ⟨⟨"Default", 1, 0, 0, 0, 0, 0⟩, [], ⟨5, 0, 0, 0, 0, 0, 0⟩, [], [], []⟩
      ⟨[], [], false, false⟩
      = ([Check.outline, Check.netclasses], ⟨[], [], false, false⟩) :=
  netclass_conformance_thorough_and_aborts_run.2.2
    ⟨false, false, false, false, false, false, true, false, true, true, true,
      ⟨true, true, true⟩⟩
    ⟨⟨"Default", 1, 0, 0, 0, 0, 0⟩, [], ⟨5, 0, 0, 0, 0, 0, 0⟩, [], [], []⟩
    ⟨[], [], false, false⟩ (by decide)

/-- C6 counterexample: a RunTests invocation with the unconnected test
disabled leaves the previous run's unconnected entries in place, so the run
result collections are not cleared and rebuilt at the start of every
invocation. -/
theorem run_results_stale_counterexample :
    (RunTests
        ⟨false, false, false, false, false, false, true, false, true, true, true,
          ⟨true, true, true⟩⟩
        ⟨⟨"Default", 0, 0, 0, 0, 0, 0⟩, [], ⟨0, 0, 0, 0, 0, 0, 0⟩, [], [], []⟩
        ⟨[(7, 8)], [], false, false⟩).2.unconnected = [(7, 8)]
    ∧ (⟨⟨"Default", 0, 0, 0, 0, 0, 0⟩, [], ⟨0, 0, 0, 0, 0, 0, 0⟩, [], [], []⟩
        : BoardInput).unconnectedEdges = [] := by
  decide

/-- C6 (amended): in a run that passes the net-class gate, the unconnected
list is cleared and rebuilt from the connectivity edges exactly when the
unconnected test is enabled and not severity-ignored (otherwise the previous
run's entries survive); the footprint list and its flag are cleared mid-run
and rebuilt exactly when footprint testing runs; and the ran flag is set at
the end of the run. -/
theorem run_results_rebuild_characterization (opts : DRCOptions) (b : BoardInput)
    (st : RunState)
    (hnc : (testNetClasses b.settings b.defaultClass b.userClasses).2 = true) :
    ((opts.doUnconnectedTest && !opts.ignoreUnconnectedItems) = true →
        (RunTests opts b st).2.unconnected = b.unconnectedEdges)
    ∧ ((opts.doUnconnectedTest && !opts.ignoreUnconnectedItems) = false →
        (RunTests opts b st).2.unconnected = st.unconnected)
    ∧ ((opts.testFootprints && !opts.kifaceIsSingle) = true →
        (RunTests opts b st).2.footprints = TestFootprints b.netlist b.modules opts.fpIgnore
        ∧ (RunTests opts b st).2.footprintsTested = true)
    ∧ ((opts.testFootprints && !opts.kifaceIsSingle) = false →
        (RunTests opts b st).2.footprints = []
        ∧ (RunTests opts b st).2.footprintsTested = false)
    ∧ (RunTests opts b st).2.drcRun = true := by
  have hcond : ¬((testNetClasses b.settings b.defaultClass b.userClasses).2 = false) := by
    simp [hnc]
  by_cases hu : (opts.doUnconnectedTest && !opts.ignoreUnconnectedItems) = true <;>
    by_cases hf : (opts.testFootprints && !opts.kifaceIsSingle) = true <;>
    simp [RunTests, hcond, hu, hf, testUnconnected]

/-- Witness for the amended C6 theorem: a concrete completed run sets the ran
flag. -/
theorem run_results_rebuild_witness :
    (RunTests
        ⟨false, true, false, false, false, false, true, false, true, true, true,
          ⟨true, true, true⟩⟩
        ⟨⟨"Default", 0, 0, 0, 0, 0, 0⟩, [], ⟨0, 0, 0, 0, 0, 0, 0⟩, [(1, 2)], [], []⟩
        ⟨[(7, 8)], [], false, false⟩).2.drcRun = true :=
  (run_results_rebuild_characterization
    ⟨false, true, false, false, false, false, true, false, true, true, true,
      ⟨true, true, true⟩⟩
    ⟨⟨"Default", 0, 0, 0, 0, 0, 0⟩, [], ⟨0, 0, 0, 0, 0, 0, 0⟩, [(1, 2)], [], []⟩
    ⟨[(7, 8)], [], false, false⟩ (by decide)).2.2.2.2

/-- Associativity of the optional-minimum merge. -/
theorem optMin_assoc (a b c : Option Int) :
    optMin (optMin a b) c = optMin a (optMin b c) := by
  cases a <;> cases b <;> cases c <;> simp [optMin, min_assoc]

/-- The empty candidate merge is the identity. -/
theorem optMin_none (a : Option Int) : optMin a none = a := by
  cases a <;> simp [optMin]

/-- Head unfolding of the candidate minimum. -/
theorem minList_cons (d : Int) (l : List Int) :
    minList (d :: l) = optMin (some d) (minList l) := by
  cases h : minList l <;> simp [minList, optMin, h]

/-- The candidate minimum is one of the candidates. -/
theorem minList_mem : ∀ (l : List Int) (v : Int), minList l = some v → v ∈ l := by
  intro l
  induction l with
  | nil => simp [minList]
  | cons d rest ih =>
    intro v hv
    rw [minList_cons] at hv
    cases h : minList rest with
    | none => rw [h] at hv; simp [optMin] at hv; simp [hv]
    | some e =>
      rw [h] at hv
      simp only [optMin, Option.some.injEq] at hv
      rcases min_cases d e with ⟨hm, _⟩ | ⟨hm, _⟩
      · simp [← hv, hm]
      · have : v ∈ rest := ih v (by rw [h, ← hv, hm])
        simp [this]

/-- Looking a point up after one conflict-map update: the update merges the
new separation at its witness point and leaves other points alone. -/
theorem conflictLookup_insert (m : List (Pt × Int)) (q p : Pt) (d : Int) :
    conflictLookup p (conflictInsert m q d)
      = if q = p then optMin (conflictLookup p m) (some d)
        else conflictLookup p m := by
  induction m with
  | nil =>
    simp only [conflictInsert, conflictLookup]
    split_ifs <;> simp [optMin, conflictLookup]
  | cons e rest ih =>
    obtain ⟨r, ev⟩ := e
    by_cases hrq : r = q
    · subst hrq
      simp only [conflictInsert, if_pos rfl]
      by_cases hrp : r = p
      · simp [conflictLookup, hrp, optMin]
      · simp [conflictLookup, hrp]
    · simp only [conflictInsert, if_neg hrq]
      by_cases hrp : r = p
      · have hqp : ¬(q = p) := fun h => hrq (h ▸ hrp)
        simp [conflictLookup, hrp, hqp]
      · simp [conflictLookup, hrp, ih]

/-- Keys after one conflict-map update. -/
theorem conflictInsert_keys (m : List (Pt × Int)) (q : Pt) (d : Int) :
    (conflictInsert m q d).map Prod.fst
      = if q ∈ m.map Prod.fst then m.map Prod.fst else m.map Prod.fst ++ [q] := by
  induction m with
  | nil => simp [conflictInsert]
  | cons e rest ih =>
    obtain ⟨r, ev⟩ := e
    by_cases hrq : r = q
    · subst hrq
      simp [conflictInsert]
    · have : ¬(q = r) := fun h => hrq h.symm
      simp only [conflictInsert, if_neg hrq, List.map_cons, List.mem_cons, this,
        false_or, ih]
      split_ifs <;> simp

/-- One conflict-map update preserves distinctness of the recorded witness
points. -/
theorem conflictInsert_nodupKeys (m : List (Pt × Int)) (q : Pt) (d : Int)
    (h : (m.map Prod.fst).Nodup) : ((conflictInsert m q d).map Prod.fst).Nodup := by
  rw [conflictInsert_keys]
  split_ifs with hq
  · exact h
  · rw [List.nodup_append]
    exact ⟨h, List.nodup_singleton q, by
      intro a ha hb
      simp only [List.mem_singleton] at hb
      exact hq (hb ▸ ha)⟩

/-- The conflict-map fold preserves distinctness of recorded witness
points. -/
theorem conflictFold_nodupKeys (geom : ZoneGeom) (clearance : Int) :
    ∀ (entries : List (Seg × Seg)) (m : List (Pt × Int)),
      (m.map Prod.fst).Nodup →
      ((entries.foldl (fun m rt =>
          let r := geom.segClearance rt.2 rt.1 clearance
          if r.1 < clearance then conflictInsert m r.2 r.1 else m) m).map
        Prod.fst).Nodup := by
  intro entries
  induction entries with
  | nil => intro m hm; simpa using hm
  | cons rt rest ih =>
    intro m hm
    simp only [List.foldl_cons]
    by_cases h1 : (geom.segClearance rt.2 rt.1 clearance).1 < clearance
    · rw [if_pos h1]
      exact ih _ (conflictInsert_nodupKeys _ _ _ hm)
    · rw [if_neg h1]
      exact ih _ hm

/-- The deduplicated conflict map has distinct witness points. -/
theorem zonePairConflicts_nodupKeys (geom : ZoneGeom) (refPoly testPoly : Poly)
    (clearance : Int) :
    ((zonePairConflicts geom refPoly testPoly clearance).map Prod.fst).Nodup := by
  unfold zonePairConflicts
  exact conflictFold_nodupKeys geom clearance _ [] (by simp)

/-- In a conflict map with distinct witness points, membership determines the
lookup. -/
theorem conflictLookup_of_mem :
    ∀ (m : List (Pt × Int)), (m.map Prod.fst).Nodup →
      ∀ p v, (p, v) ∈ m → conflictLookup p m = some v := by
  intro m
  induction m with
  | nil => simp
  | cons e rest ih =>
    intro hnd p v hm
    obtain ⟨r, ev⟩ := e
    simp only [List.map_cons, List.nodup_cons] at hnd
    simp only [List.mem_cons, Prod.mk.injEq] at hm
    rcases hm with ⟨h1, h2⟩ | hm
    · simp [conflictLookup, h1, h2]
    · have hp : p ∈ rest.map Prod.fst :=
        List.mem_map.mpr ⟨(p, v), hm, rfl⟩
      have hrp : ¬(r = p) := fun h => hnd.1 (h ▸ hp)
      simp only [conflictLookup, if_neg hrp]
      exact ih hnd.2 p v hm

/-- The conflict-map fold computes, at each witness point, the merge of the
initial entry with the minimum of all separations recorded there. -/
theorem conflictFold_lookup (geom : ZoneGeom) (clearance : Int) (p : Pt) :
    ∀ (entries : List (Seg × Seg)) (m : List (Pt × Int)),
      conflictLookup p (entries.foldl (fun m rt =>
          let r := geom.segClearance rt.2 rt.1 clearance
          if r.1 < clearance then conflictInsert m r.2 r.1 else m) m)
        = optMin (conflictLookup p m)
            (minList (entries.filterMap (fun rt =>
              let r := geom.segClearance rt.2 rt.1 clearance
              if r.1 < clearance ∧ r.2 = p then some r.1 else none))) := by
  intro entries
  induction entries with
  | nil => intro m; simp [minList, optMin_none]
  | cons rt rest ih =>
    intro m
    simp only [List.foldl_cons, List.filterMap_cons]
    by_cases h1 : (geom.segClearance rt.2 rt.1 clearance).1 < clearance
    · by_cases h2 : (geom.segClearance rt.2 rt.1 clearance).2 = p
      · rw [if_pos h1, if_pos ⟨h1, h2⟩, ih, conflictLookup_insert, if_pos h2,
          minList_cons, ← optMin_assoc]
      · rw [if_pos h1, if_neg (fun hc => h2 hc.2), ih, conflictLookup_insert,
          if_neg h2]
    · rw [if_neg h1, if_neg (fun hc => h1 hc.1), ih]

/-- The deduplicated conflict map records, at each witness point, exactly the
minimum separation observed there. -/
theorem zonePairConflicts_lookup (geom : ZoneGeom) (refPoly testPoly : Poly)
    (clearance : Int) (p : Pt) :
    conflictLookup p (zonePairConflicts geom refPoly testPoly clearance)
      = minList (conflictCandidates geom refPoly testPoly clearance p) := by
  unfold zonePairConflicts conflictCandidates
  rw [conflictFold_lookup]
  simp [conflictLookup, optMin]

/-- Every recorded conflict separation is one actually reported by the
segment-clearance primitive below the clearance; with a nonnegative distance
primitive it lies in [0, clearance). -/
theorem zonePairConflicts_mem_bound (geom : ZoneGeom) (refPoly testPoly : Poly)
    (clearance : Int) (hd : ∀ s1 s2 c, 0 ≤ (geom.segClearance s1 s2 c).1) :
    ∀ c ∈ zonePairConflicts geom refPoly testPoly clearance,
      0 ≤ c.2 ∧ c.2 < clearance := by
  intro c hc
  have hl : conflictLookup c.1 (zonePairConflicts geom refPoly testPoly clearance)
      = some c.2 :=
    conflictLookup_of_mem _ (zonePairConflicts_nodupKeys geom refPoly testPoly clearance)
      c.1 c.2 (by simpa using hc)
  rw [zonePairConflicts_lookup] at hl
  have hv := minList_mem _ _ hl
  unfold conflictCandidates at hv
  obtain ⟨rt, _, hrt⟩ := List.mem_filterMap.mp hv
  simp only at hrt
  by_cases hcond : (geom.segClearance rt.2 rt.1 clearance).1 < clearance
      ∧ (geom.segClearance rt.2 rt.1 clearance).2 = c.1
  · rw [if_pos hcond] at hrt
    have heq : (geom.segClearance rt.2 rt.1 clearance).1 = c.2 :=
      Option.some.injEq .. ▸ hrt
    have h0 := hd rt.2 rt.1 clearance
    have h1 := hcond.1
    omega
  · rw [if_neg hcond] at hrt
    exact absurd hrt (by simp)

/-- C3: in the zone-to-zone boundary-segment test, conflicting witness points
are deduplicated by point with the minimum observed separation kept per
point; every surviving conflict has separation in [0, clearance); a
separation of exactly zero is reported as an intersection violation (no
formatted message), and a strictly positive separation is reported as a
too-close violation whose message carries the clearance and the measured
separation, and the corresponding marker is among the pair's emitted
markers. -/
theorem zone_conflict_dedup_and_classification (geom : ZoneGeom) (ia ia2 : Nat)
    (zoneRef zoneToTest : Zone)
    (hd : ∀ s1 s2 c, 0 ≤ (geom.segClearance s1 s2 c).1) :
    (∀ p, conflictLookup p (zonePairConflicts geom (geom.smoothed ia)
          (geom.smoothed ia2) (effectiveZoneClearance geom zoneRef zoneToTest))
        = minList (conflictCandidates geom (geom.smoothed ia) (geom.smoothed ia2)
            (effectiveZoneClearance geom zoneRef zoneToTest) p))
    ∧ (∀ c ∈ zonePairConflicts geom (geom.smoothed ia) (geom.smoothed ia2)
          (effectiveZoneClearance geom zoneRef zoneToTest),
        0 ≤ c.2
        ∧ c.2 < effectiveZoneClearance geom zoneRef zoneToTest
        ∧ conflictMarker zoneRef zoneToTest
            (effectiveZoneClearance geom zoneRef zoneToTest) c
            ∈ processZonePair geom ia ia2 zoneRef zoneToTest
        ∧ (c.2 = 0 →
            conflictMarker zoneRef zoneToTest
              (effectiveZoneClearance geom zoneRef zoneToTest) c
            = ⟨ErrorCode.zonesIntersect, zoneRef.id, zoneToTest.id, c.1, none⟩)
        ∧ (0 < c.2 →
            conflictMarker zoneRef zoneToTest
              (effectiveZoneClearance geom zoneRef zoneToTest) c
            = ⟨ErrorCode.zonesTooClose, zoneRef.id, zoneToTest.id, c.1,
                some (effectiveZoneClearance geom zoneRef zoneToTest, c.2)⟩)) := by
  constructor
  · intro p
    exact zonePairConflicts_lookup geom _ _ _ p
  · intro c hc
    obtain ⟨h0, hlt⟩ := zonePairConflicts_mem_bound geom _ _ _ hd c hc
    refine ⟨h0, hlt, ?_, ?_, ?_⟩
    · simp only [processZonePair, List.mem_append]
      right
      exact List.mem_map.mpr ⟨c, hc, rfl⟩
    · intro hz
      simp [conflictMarker, hz]
    · intro hp
      have : ¬(c.2 ≤ 0) := by omega
      simp [conflictMarker, this]

/-- Witness for the C3 theorem at a concrete geometry. -/
theorem zone_conflict_dedup_witness :
    conflictLookup ⟨0, 0⟩
        (zonePairConflicts
          (⟨fun _ => ⟨[], [⟨⟨0, 0⟩, ⟨1, 0⟩⟩]⟩, fun _ _ => false,
            fun _ _ _ => (0, ⟨0, 0⟩), fun _ _ => 5⟩ : ZoneGeom)
          ((⟨fun _ => ⟨[], [⟨⟨0, 0⟩, ⟨1, 0⟩⟩]⟩, fun _ _ => false,
            fun _ _ _ => (0, ⟨0, 0⟩), fun _ _ => 5⟩ : ZoneGeom).smoothed 0)
          ((⟨fun _ => ⟨[], [⟨⟨0, 0⟩, ⟨1, 0⟩⟩]⟩, fun _ _ => false,
            fun _ _ _ => (0, ⟨0, 0⟩), fun _ _ => 5⟩ : ZoneGeom).smoothed 1)
          (effectiveZoneClearance
            (⟨fun _ => ⟨[], [⟨⟨0, 0⟩, ⟨1, 0⟩⟩]⟩, fun _ _ => false,
              fun _ _ _ => (0, ⟨0, 0⟩), fun _ _ => 5⟩ : ZoneGeom)
            ⟨0, 0, 5, 0, false⟩ ⟨1, 0, 6, 0, false⟩))
      = minList (conflictCandidates
          (⟨fun _ => ⟨[], [⟨⟨0, 0⟩, ⟨1, 0⟩⟩]⟩, fun _ _ => false,
            fun _ _ _ => (0, ⟨0, 0⟩), fun _ _ => 5⟩ : ZoneGeom)
          ((⟨fun _ => ⟨[], [⟨⟨0, 0⟩, ⟨1, 0⟩⟩]⟩, fun _ _ => false,
            fun _ _ _ => (0, ⟨0, 0⟩), fun _ _ => 5⟩ : ZoneGeom).smoothed 0)
          ((⟨fun _ => ⟨[], [⟨⟨0, 0⟩, ⟨1, 0⟩⟩]⟩, fun _ _ => false,
            fun _ _ _ => (0, ⟨0, 0⟩), fun _ _ => 5⟩ : ZoneGeom).smoothed 1)
          (effectiveZoneClearance
            (⟨fun _ => ⟨[], [⟨⟨0, 0⟩, ⟨1, 0⟩⟩]⟩, fun _ _ => false,
              fun _ _ _ => (0, ⟨0, 0⟩), fun _ _ => 5⟩ : ZoneGeom)
            ⟨0, 0, 5, 0, false⟩ ⟨1, 0, 6, 0, false⟩) ⟨0, 0⟩) :=
  (zone_conflict_dedup_and_classification
    (⟨fun _ => ⟨[], [⟨⟨0, 0⟩, ⟨1, 0⟩⟩]⟩, fun _ _ => false,
      fun _ _ _ => (0, ⟨0, 0⟩), fun _ _ => 5⟩ : ZoneGeom) 0 1
    ⟨0, 0, 5, 0, false⟩ ⟨1, 0, 6, 0, false⟩
    (fun _ _ _ => le_refl 0)).1 ⟨0, 0⟩

/-- C10: for a surviving pair whose reference zone is a keepout, the
segment-separation clearance is exactly 1 internal unit regardless of the
resolved clearance, every recorded conflict has separation exactly zero, and
the pair's markers never include a too-close violation. -/
theorem keepout_zone_clearance_one (geom : ZoneGeom) (ia ia2 : Nat)
    (zoneRef zoneToTest : Zone) (hk : zoneRef.isKeepout = true)
    (hd : ∀ s1 s2 c, 0 ≤ (geom.segClearance s1 s2 c).1) :
    effectiveZoneClearance geom zoneRef zoneToTest = 1
    ∧ (∀ c ∈ zonePairConflicts geom (geom.smoothed ia) (geom.smoothed ia2)
          (effectiveZoneClearance geom zoneRef zoneToTest), c.2 = 0)
    ∧ (∀ mk ∈ processZonePair geom ia ia2 zoneRef zoneToTest,
        mk.code ≠ ErrorCode.zonesTooClose) := by
  have hcl : effectiveZoneClearance geom zoneRef zoneToTest = 1 := by
    simp [effectiveZoneClearance, hk]
  refine ⟨hcl, ?_, ?_⟩
  · intro c hc
    have := zonePairConflicts_mem_bound geom _ _ _ hd c hc
    omega
  · intro mk hmk
    simp only [processZonePair, List.mem_append] at hmk
    rcases hmk with (hmk | hmk) | hmk
    · obtain ⟨v, _, rfl⟩ := List.mem_map.mp hmk
      simp
    · obtain ⟨v, _, rfl⟩ := List.mem_map.mp hmk
      simp
    · obtain ⟨c, hc, rfl⟩ := List.mem_map.mp hmk
      have hb := zonePairConflicts_mem_bound geom _ _ _ hd c hc
      have hz : c.2 ≤ 0 := by omega
      simp [conflictMarker, hz]

/-- Witness for the C10 theorem at a concrete keepout pair. -/
theorem keepout_zone_clearance_one_witness :
    effectiveZoneClearance
        (⟨fun _ => ⟨[], [⟨⟨0, 0⟩, ⟨1, 0⟩⟩]⟩, fun _ _ => false,
          fun _ _ _ => (0, ⟨0, 0⟩), fun _ _ => 5⟩ : ZoneGeom)
        ⟨0, 0, 5, 0, true⟩ ⟨1, 0, 6, 0, true⟩ = 1 :=
  (keepout_zone_clearance_one
    (⟨fun _ => ⟨[], [⟨⟨0, 0⟩, ⟨1, 0⟩⟩]⟩, fun _ _ => false,
      fun _ _ _ => (0, ⟨0, 0⟩), fun _ _ => 5⟩ : ZoneGeom) 0 1
    ⟨0, 0, 5, 0, true⟩ ⟨1, 0, 6, 0, true⟩ rfl (fun _ _ _ => le_refl 0)).1

/-- A successful case-insensitive match makes the two lowercased references
equal. -/
theorem refEqNoCase_eq (a b : String) (h : refEqNoCase a b = true) :
    a.toLower = b.toLower := by
  simpa [refEqNoCase] using h

/-- Case-insensitive key predicates agree on references with equal
lowercasing. -/
theorem refEqNoCase_congr (a b : String) (h : a.toLower = b.toLower) (x : String) :
    refEqNoCase x a = refEqNoCase x b := by
  simp [refEqNoCase, h]

/-- The set built by the duplicate scan finds references exactly like a
first-match scan over the original order of insertions. -/
theorem dupScan_set_find (r : String) :
    ∀ (l mods : List Module),
      ((dupScan mods l).2).find? (fun x => refEqNoCase x.reference r)
        = (mods ++ l).find? (fun x => refEqNoCase x.reference r) := by
  intro l
  induction l with
  | nil => intro mods; simp [dupScan]
  | cons m rest ih =>
    intro mods
    simp only [dupScan]
    cases hf : mods.find? (fun x => refEqNoCase x.reference m.reference) with
    | some first =>
      simp only
      rw [ih mods, List.find?_append, List.find?_append]
      by_cases hm : refEqNoCase m.reference r = true
      · have hpq : (fun x : Module => refEqNoCase x.reference r)
            = (fun x : Module => refEqNoCase x.reference m.reference) :=
          funext fun x => (refEqNoCase_congr _ _ (refEqNoCase_eq _ _ hm) _).symm
        rw [hpq, hf]
        rfl
      · have : List.find? (fun x => refEqNoCase x.reference r) (m :: rest)
            = List.find? (fun x => refEqNoCase x.reference r) rest := by
          simp only [List.find?]
          rw [Bool.of_not_eq_true hm]
        rw [this]
    | none =>
      simp only
      rw [ih (mods ++ [m])]
      simp

/-- Members of the duplicate-scan set come from the insertions. -/
theorem dupScan_set_subset :
    ∀ (l mods : List Module) (x : Module), x ∈ (dupScan mods l).2 → x ∈ mods ++ l := by
  intro l
  induction l with
  | nil => intro mods x hx; simpa [dupScan] using hx
  | cons m rest ih =>
    intro mods x hx
    simp only [dupScan] at hx
    cases hf : mods.find? (fun y => refEqNoCase y.reference m.reference) with
    | some first =>
      rw [hf] at hx
      have := ih mods x hx
      simp only [List.mem_append] at this ⊢
      rcases this with h | h
      · exact Or.inl h
      · exact Or.inr (List.mem_cons_of_mem m h)
    | none =>
      rw [hf] at hx
      have := ih (mods ++ [m]) x hx
      simpa [List.mem_append, or_assoc] using this

/-- Each reference key is represented at most once, and exactly once when it
was inserted, in the duplicate-scan set. -/
theorem dupScan_set_countP (r : String) :
    ∀ (l mods : List Module),
      ((dupScan mods l).2).countP (fun x => refEqNoCase x.reference r)
        = if mods.find? (fun x => refEqNoCase x.reference r) ≠ none
          then mods.countP (fun x => refEqNoCase x.reference r)
          else if l.find? (fun x => refEqNoCase x.reference r) ≠ none then 1 else 0 := by
  intro l
  induction l with
  | nil =>
    intro mods
    by_cases hf : mods.find? (fun x => refEqNoCase x.reference r) = none
    · rw [dupScan]
      simp only [hf]
      simp [List.countP_eq_zero.mpr (by
        intro x hx
        exact (List.find?_eq_none.mp hf) x hx)]
    · rw [dupScan]
      simp [hf]
  | cons m rest ih =>
    intro mods
    simp only [dupScan]
    cases hf : mods.find? (fun y => refEqNoCase y.reference m.reference) with
    | some first =>
      simp only
      rw [ih mods]
      by_cases hm : refEqNoCase m.reference r = true
      · have hpq : (fun x : Module => refEqNoCase x.reference r)
            = (fun x : Module => refEqNoCase x.reference m.reference) :=
          funext fun x => (refEqNoCase_congr _ _ (refEqNoCase_eq _ _ hm) _).symm
        rw [hpq, hf]
        simp
      · have hmr : List.find? (fun x => refEqNoCase x.reference r) (m :: rest)
            = List.find? (fun x => refEqNoCase x.reference r) rest := by
          simp only [List.find?]
          rw [Bool.of_not_eq_true hm]
        rw [hmr]
    | none =>
      simp only
      rw [ih (mods ++ [m])]
      by_cases hm : refEqNoCase m.reference r = true
      · have hpq : (fun x : Module => refEqNoCase x.reference r)
            = (fun x : Module => refEqNoCase x.reference m.reference) :=
          funext fun x => (refEqNoCase_congr _ _ (refEqNoCase_eq _ _ hm) _).symm
        have hmods : mods.find? (fun x => refEqNoCase x.reference r) = none := by
          rw [hpq]; exact hf
        have happ : (mods ++ [m]).find? (fun x => refEqNoCase x.reference r)
            = some m := by
          rw [List.find?_append, hmods]
          simp [List.find?, hm]
        have hcnt : mods.countP (fun x => refEqNoCase x.reference r) = 0 :=
          List.countP_eq_zero.mpr (List.find?_eq_none.mp hmods)
        rw [happ, hmods]
        simp only [ne_eq, reduceCtorEq, not_false_eq_true, if_true, if_pos]
        rw [List.countP_append, hcnt]
        simp [List.countP_cons, hm, List.find?, Option.isSome]
      · have hmr : (mods ++ [m]).find? (fun x => refEqNoCase x.reference r)
            = mods.find? (fun x => refEqNoCase x.reference r) := by
          rw [List.find?_append]
          have : List.find? (fun x => refEqNoCase x.reference r) [m] = none := by
            simp only [List.find?]
            rw [Bool.of_not_eq_true hm]
          rw [this]
          cases mods.find? (fun x => refEqNoCase x.reference r) <;> rfl
        have hcm : (mods ++ [m]).countP (fun x => refEqNoCase x.reference r)
            = mods.countP (fun x => refEqNoCase x.reference r) := by
          rw [List.countP_append]
          simp [List.countP_cons, Bool.of_not_eq_true hm]
        have hms : List.find? (fun x => refEqNoCase x.reference r) (m :: rest)
            = List.find? (fun x => refEqNoCase x.reference r) rest := by
          simp only [List.find?]
          rw [Bool.of_not_eq_true hm]
        rw [hmr, hcm, hms]

/-- Every duplicate item pairs a later footprint with the first footprint
carrying its reference, in insertion order. -/
theorem dupScan_items :
    ∀ (l mods : List Module) (i : FPItem), i ∈ (dupScan mods l).1 →
      ∃ mdup first, i = ⟨ErrorCode.duplicateFootprint, some mdup, some first, ""⟩
        ∧ (mods ++ l).find? (fun x => refEqNoCase x.reference mdup.reference)
            = some first := by
  intro l
  induction l with
  | nil => intro mods i hi; simp [dupScan] at hi
  | cons m rest ih =>
    intro mods i hi
    simp only [dupScan] at hi
    cases hf : mods.find? (fun y => refEqNoCase y.reference m.reference) with
    | some first =>
      rw [hf] at hi
      simp only [List.mem_cons] at hi
      rcases hi with rfl | hi
      · refine ⟨m, first, rfl, ?_⟩
        rw [List.find?_append, hf]
        rfl
      · obtain ⟨md, fst, rfl, hfind⟩ := ih mods i hi
        refine ⟨md, fst, rfl, ?_⟩
        rw [List.find?_append] at hfind ⊢
        cases hmods : mods.find? (fun x => refEqNoCase x.reference md.reference) with
        | some y =>
          rw [hmods] at hfind
          exact hfind
        | none =>
          rw [hmods] at hfind
          by_cases hm : refEqNoCase m.reference md.reference = true
          · exfalso
            have hpq : (fun x : Module => refEqNoCase x.reference md.reference)
                = (fun x : Module => refEqNoCase x.reference m.reference) :=
              funext fun x => (refEqNoCase_congr _ _ (refEqNoCase_eq _ _ hm) _).symm
            rw [hpq, hf] at hmods
            exact Option.noConfusion hmods
          · have : List.find? (fun x => refEqNoCase x.reference md.reference) (m :: rest)
                = List.find? (fun x => refEqNoCase x.reference md.reference) rest := by
              simp only [List.find?]
              rw [Bool.of_not_eq_true hm]
            rw [this]
            simp only [Option.none_or] at hfind ⊢
            exact hfind
    | none =>
      rw [hf] at hi
      obtain ⟨md, fst, rfl, hfind⟩ := ih (mods ++ [m]) i hi
      refine ⟨md, fst, rfl, ?_⟩
      simpa using hfind

/-- A reference matches itself case-insensitively. -/
theorem refEqNoCase_self (a : String) : refEqNoCase a a = true := by
  simp [refEqNoCase]

/-- C8 counterexample: with duplicate-footprint checking ignored but
extra-footprint checking enabled, a board footprint absent from the netlist
produces no extra-footprint discrepancy at all, because the extra scan
iterates the reference set that only the duplicate scan populates. -/
theorem footprint_extra_counterexample :
    (⟨true, false, false⟩ : FPIgnoreFlags).extraFootprint = false
    ∧ GetComponentByReference [] "U1" = none
    ∧ (⟨0, "U1"⟩ : Module) ∈ [(⟨0, "U1"⟩ : Module)]
    ∧ TestFootprints [] [⟨0, "U1"⟩] ⟨true, false, false⟩ = [] := by
  decide

/-- C8 (amended): with duplicate-footprint checking not ignored (its scan
builds the reference set the extra scan iterates) and extra-footprint
checking enabled, every board footprint whose reference is absent from the
netlist (case-insensitively) yields exactly one extra-footprint discrepancy,
referencing the first board footprint inserted under that reference; no
missing-footprint discrepancy carries that reference; and every duplicate
discrepancy is flagged against the first-inserted footprint with its
reference. -/
theorem footprint_reconciliation_extra_unique (netlist : List Component)
    (boardModules : List Module) (ign : FPIgnoreFlags) (m : Module)
    (hdup : ign.duplicateFootprint = false) (hextra : ign.extraFootprint = false)
    (hm : m ∈ boardModules)
    (habsent : GetComponentByReference netlist m.reference = none) :
    ((TestFootprints netlist boardModules ign).countP
        (fun i => decide (i.code = ErrorCode.extraFootprint) && fpItemRefs i m.reference)
      = 1)
    ∧ (∀ first, FindModuleByReference boardModules m.reference = some first →
        (⟨ErrorCode.extraFootprint, some first, none, ""⟩ : FPItem)
          ∈ TestFootprints netlist boardModules ign)
    ∧ ((TestFootprints netlist boardModules ign).countP
        (fun i => decide (i.code = ErrorCode.missingFootprint)
          && refEqNoCase i.missingRef m.reference) = 0)
    ∧ (∀ i ∈ TestFootprints netlist boardModules ign,
        i.code = ErrorCode.duplicateFootprint →
        ∃ mdup first, i.itemA = some mdup ∧ i.itemB = some first
          ∧ FindModuleByReference boardModules mdup.reference = some first) := by
  have hkeyq : ∀ x : Module, refEqNoCase x.reference m.reference = true →
      (GetComponentByReference netlist x.reference).isNone = true := by
    intro x hx
    have hpq : (fun c : Component => refEqNoCase c.reference x.reference)
        = (fun c : Component => refEqNoCase c.reference m.reference) :=
      funext fun c => refEqNoCase_congr _ _ (refEqNoCase_eq _ _ hx) _
    unfold GetComponentByReference at habsent ⊢
    rw [hpq, habsent]
    rfl
  have hsetfind : ((dupScan [] boardModules).2).find?
        (fun x => refEqNoCase x.reference m.reference)
      = boardModules.find? (fun x => refEqNoCase x.reference m.reference) := by
    have := dupScan_set_find m.reference boardModules []
    simpa using this
  have hbfind : boardModules.find? (fun x => refEqNoCase x.reference m.reference) ≠ none := by
    intro hnone
    exact absurd (refEqNoCase_self m.reference)
      (by simpa using List.find?_eq_none.mp hnone m hm)
  refine ⟨?_, ?_, ?_, ?_⟩
  · simp only [TestFootprints, hdup, hextra, Bool.not_false, if_true]
    rw [List.countP_append, List.countP_append]
    have hdupcnt : ((dupScan [] boardModules).1).countP
        (fun i => decide (i.code = ErrorCode.extraFootprint) && fpItemRefs i m.reference)
        = 0 := by
      rw [List.countP_eq_zero]
      intro i hi
      obtain ⟨md, fst, rfl, _⟩ := dupScan_items boardModules [] i hi
      simp
    have hmisscnt : (if !ign.missingFootprint then
          ((netlist.filter
            (fun c => (FindModuleByReference boardModules c.reference).isNone)).map
            (fun c => (⟨ErrorCode.missingFootprint, none, none, c.reference⟩ : FPItem)))
        else []).countP
        (fun i => decide (i.code = ErrorCode.extraFootprint) && fpItemRefs i m.reference)
        = 0 := by
      split_ifs
      · rw [List.countP_eq_zero]
        intro i hi
        obtain ⟨c, _, rfl⟩ := List.mem_map.mp hi
        simp
      · rfl
    rw [hdupcnt, hmisscnt, List.countP_map, List.countP_filter]
    have hcong : ∀ a ∈ (dupScan [] boardModules).2,
        ((((fun i => decide (i.code = ErrorCode.extraFootprint) && fpItemRefs i m.reference)
            ∘ (fun mm => (⟨ErrorCode.extraFootprint, some mm, none, ""⟩ : FPItem))) a
          && (GetComponentByReference netlist a.reference).isNone) = true)
        ↔ refEqNoCase a.reference m.reference = true := by
      intro a _
      simp only [Function.comp, fpItemRefs]
      by_cases hk : refEqNoCase a.reference m.reference = true
      · simp [hk, hkeyq a hk]
      · simp [Bool.of_not_eq_true hk]
    rw [List.countP_congr hcong, dupScan_set_countP]
    simp [hbfind, List.find?]
  · intro first hfirst
    unfold FindModuleByReference at hfirst
    have hfs : ((dupScan [] boardModules).2).find?
        (fun x => refEqNoCase x.reference m.reference) = some first := by
      rw [hsetfind]; exact hfirst
    have hfmem : first ∈ (dupScan [] boardModules).2 :=
      List.mem_of_find?_eq_some hfs
    have hfkey0 : (fun x : Module => refEqNoCase x.reference m.reference) first = true :=
      @List.find?_some Module (fun x : Module => refEqNoCase x.reference m.reference)
        first ((dupScan [] boardModules).2) hfs
    have hfkey : refEqNoCase first.reference m.reference = true := hfkey0
    simp only [TestFootprints, hdup, hextra, Bool.not_false, if_true]
    refine List.mem_append.mpr (Or.inr ?_)
    exact List.mem_map.mpr ⟨first,
      List.mem_filter.mpr ⟨hfmem, hkeyq first hfkey⟩, rfl⟩
  · simp only [TestFootprints, hdup, hextra, Bool.not_false, if_true]
    rw [List.countP_append, List.countP_append]
    have h1 : ((dupScan [] boardModules).1).countP
        (fun i => decide (i.code = ErrorCode.missingFootprint)
          && refEqNoCase i.missingRef m.reference) = 0 := by
      rw [List.countP_eq_zero]
      intro i hi
      obtain ⟨md, fst, rfl, _⟩ := dupScan_items boardModules [] i hi
      simp [refEqNoCase]
    have h3 : List.countP
        (fun i : FPItem => decide (i.code = ErrorCode.missingFootprint)
          && refEqNoCase i.missingRef m.reference)
        ((((dupScan [] boardModules).2).filter
          (fun mm => (GetComponentByReference netlist mm.reference).isNone)).map
          (fun mm => (⟨ErrorCode.extraFootprint, some mm, none, ""⟩ : FPItem))) = 0 := by
      rw [List.countP_eq_zero]
      intro i hi
      obtain ⟨mm, _, rfl⟩ := List.mem_map.mp hi
      simp
    have h2 : (if !ign.missingFootprint then
          ((netlist.filter
            (fun c => (FindModuleByReference boardModules c.reference).isNone)).map
            (fun c => (⟨ErrorCode.missingFootprint, none, none, c.reference⟩ : FPItem)))
        else []).countP
        (fun i => decide (i.code = ErrorCode.missingFootprint)
          && refEqNoCase i.missingRef m.reference) = 0 := by
      split_ifs
      · rw [List.countP_map, List.countP_eq_zero]
        intro c hc
        have hcnone := (List.mem_filter.mp hc).2
        by_cases hk : refEqNoCase c.reference m.reference = true
        · exfalso
          have hpq : (fun x : Module => refEqNoCase x.reference c.reference)
              = (fun x : Module => refEqNoCase x.reference m.reference) :=
            funext fun x => refEqNoCase_congr _ _ (refEqNoCase_eq _ _ hk) _
          unfold FindModuleByReference at hcnone
          rw [hpq] at hcnone
          cases hfind : boardModules.find? (fun x => refEqNoCase x.reference m.reference) with
          | none => exact hbfind hfind
          | some y => rw [hfind] at hcnone; simp at hcnone
        · simp [Function.comp, Bool.of_not_eq_true hk]
      · rfl
    rw [h1, h2, h3]
  · intro i hi hcode
    simp only [TestFootprints, hdup, hextra, Bool.not_false, if_true,
      List.mem_append] at hi
    rcases hi with (hi | hi) | hi
    · obtain ⟨md, fst, rfl, hfind⟩ := dupScan_items boardModules [] i hi
      refine ⟨md, fst, rfl, rfl, ?_⟩
      unfold FindModuleByReference
      simpa using hfind
    · exfalso
      cases hmi : ign.missingFootprint with
      | false =>
        rw [hmi] at hi
        simp only [Bool.not_false, if_true] at hi
        obtain ⟨c, _, rfl⟩ := List.mem_map.mp hi
        simp at hcode
      | true =>
        rw [hmi] at hi
        simp at hi
    · obtain ⟨mm, _, rfl⟩ := List.mem_map.mp hi
      simp at hcode

/-- Witness for the amended C8 theorem: a concrete board footprint absent
from an empty netlist yields one extra-footprint discrepancy. -/
theorem footprint_reconciliation_extra_witness :
    (TestFootprints [] [⟨0, "U1"⟩] ⟨false, false, false⟩).countP
        (fun i => decide (i.code = ErrorCode.extraFootprint) && fpItemRefs i "U1")
      = 1 :=
  (footprint_reconciliation_extra_unique [] [⟨0, "U1"⟩] ⟨false, false, false⟩
    ⟨0, "U1"⟩ rfl rfl (by decide) (by decide)).1

/-- When every candidate passes all three clearance tests, the limit-free
scan runs to the end without emitting anything. -/
theorem doPadToPadsDrcCore_all_pass (allCu : Nat) (aRefPad : Pad) (xLimit : Int) :
    ∀ (pads : List Pad),
      (∀ p ∈ pads, p.id ≠ aRefPad.id →
        checkClearancePadToPad aRefPad (dummyPadFor p allCu) aRefPad.clearance = true
        ∧ checkClearancePadToPad p (dummyPadFor aRefPad allCu) p.clearance = true
        ∧ checkClearancePadToPad aRefPad p aRefPad.clearance = true) →
      doPadToPadsDrcCore false allCu aRefPad xLimit pads = (true, []) := by
  intro pads
  induction pads with
  | nil => intro _; simp [doPadToPadsDrcCore]
  | cons p rest ih =>
    intro h
    have hrest := fun q hq => h q (List.mem_cons_of_mem p hq)
    simp only [doPadToPadsDrcCore]
    by_cases hid : p.id = aRefPad.id
    · rw [if_pos hid]
      exact ih hrest
    · rw [if_neg hid]
      have hp := h p (List.mem_cons_self p rest) hid
      rw [if_neg (fun hc => Bool.false_ne_true hc.1 : ¬(false = true ∧ xLimit < p.x))]
      by_cases hL : (Nat.land p.layerSet (Nat.land aRefPad.layerSet allCu) = 0
          ∧ Nat.land p.layerSet allCu ≠ 0 ∧ Nat.land aRefPad.layerSet allCu ≠ 0)
      · rw [if_pos hL]
        by_cases hSH : padsAcceptedSameHole aRefPad p = true
        · rw [if_pos hSH]
          exact ih hrest
        · rw [if_neg hSH,
            if_neg (fun hc => Bool.noConfusion (hp.1.symm.trans hc.2)
              : ¬(p.drillW ≠ 0 ∧ checkClearancePadToPad aRefPad (dummyPadFor p allCu)
                  aRefPad.clearance = false)),
            if_neg (fun hc => Bool.noConfusion (hp.2.1.symm.trans hc.2)
              : ¬(aRefPad.drillW ≠ 0 ∧ checkClearancePadToPad p (dummyPadFor aRefPad allCu)
                  p.clearance = false))]
          exact ih hrest
      · rw [if_neg hL]
        by_cases h5 : (p.netCode ≠ 0 ∧ aRefPad.netCode = p.netCode)
        · rw [if_pos h5]
          exact ih hrest
        · rw [if_neg h5]
          by_cases h6 : (p.parent = aRefPad.parent ∧ p.padName = aRefPad.padName)
          · rw [if_pos h6]
            exact ih hrest
          · rw [if_neg h6]
            by_cases h7 : ((Nat.land p.layerSet (Nat.land aRefPad.layerSet allCu) = 0
                ∧ p.drillW = 0)
                ∨ (Nat.land aRefPad.layerSet (Nat.land aRefPad.layerSet allCu) = 0
                ∧ aRefPad.drillW = 0))
            · rw [if_pos h7]
              exact ih hrest
            · rw [if_neg h7,
                if_neg (fun hc => Bool.noConfusion (hp.2.2.symm.trans hc)
                  : ¬(checkClearancePadToPad aRefPad p aRefPad.clearance = false))]
              exact ih hrest

/-- Removing the sorted-scan break does not change the scan when every
candidate beyond the limit passes all three clearance tests (the list being
sorted by x). -/
theorem doPadToPadsDrcCore_limit_eq (allCu : Nat) (aRefPad : Pad) (xLimit : Int) :
    ∀ (pads : List Pad),
      List.Pairwise (fun a b : Pad => a.x ≤ b.x) pads →
      (∀ p ∈ pads, xLimit < p.x → p.id ≠ aRefPad.id →
        checkClearancePadToPad aRefPad (dummyPadFor p allCu) aRefPad.clearance = true
        ∧ checkClearancePadToPad p (dummyPadFor aRefPad allCu) p.clearance = true
        ∧ checkClearancePadToPad aRefPad p aRefPad.clearance = true) →
      doPadToPadsDrcCore true allCu aRefPad xLimit pads
        = doPadToPadsDrcCore false allCu aRefPad xLimit pads := by
  intro pads
  induction pads with
  | nil => intro _ _; rfl
  | cons p rest ih =>
    intro hsort hfar
    have hsort2 := (List.pairwise_cons.mp hsort).2
    have hhead := (List.pairwise_cons.mp hsort).1
    have hfar2 := fun q hq => hfar q (List.mem_cons_of_mem p hq)
    by_cases hid : p.id = aRefPad.id
    · have hu : ∀ u : Bool, doPadToPadsDrcCore u allCu aRefPad xLimit (p :: rest)
          = doPadToPadsDrcCore u allCu aRefPad xLimit rest := by
        intro u
        simp only [doPadToPadsDrcCore]
        rw [if_pos hid]
      rw [hu true, hu false]
      exact ih hsort2 hfar2
    · by_cases hx : xLimit < p.x
      · have hL : doPadToPadsDrcCore true allCu aRefPad xLimit (p :: rest)
            = (true, []) := by
          simp only [doPadToPadsDrcCore]
          rw [if_neg hid, if_pos (⟨trivial, hx⟩ : True ∧ xLimit < p.x)]
        have hall : ∀ q ∈ p :: rest, q.id ≠ aRefPad.id →
            checkClearancePadToPad aRefPad (dummyPadFor q allCu) aRefPad.clearance = true
            ∧ checkClearancePadToPad q (dummyPadFor aRefPad allCu) q.clearance = true
            ∧ checkClearancePadToPad aRefPad q aRefPad.clearance = true := by
          intro q hq
          simp only [List.mem_cons] at hq
          rcases hq with rfl | hq
          · exact hfar q (List.mem_cons_self q rest) hx
          · exact hfar q (List.mem_cons_of_mem p hq)
              (lt_of_lt_of_le hx (hhead q hq))
        rw [hL, doPadToPadsDrcCore_all_pass allCu aRefPad xLimit (p :: rest) hall]
      · have ihh := ih hsort2 hfar2
        simp only [doPadToPadsDrcCore]
        rw [if_neg hid, if_neg hid,
          if_neg (fun hc => hx hc.2 : ¬(True ∧ xLimit < p.x)),
          if_neg (fun hc => Bool.false_ne_true hc.1 : ¬(false = true ∧ xLimit < p.x))]
        by_cases hL : (Nat.land p.layerSet (Nat.land aRefPad.layerSet allCu) = 0
            ∧ Nat.land p.layerSet allCu ≠ 0 ∧ Nat.land aRefPad.layerSet allCu ≠ 0)
        · rw [if_pos hL, if_pos hL]
          by_cases hSH : padsAcceptedSameHole aRefPad p = true
          · rw [if_pos hSH, if_pos hSH]
            exact ihh
          · rw [if_neg hSH, if_neg hSH]
            by_cases h3 : (p.drillW ≠ 0 ∧ checkClearancePadToPad aRefPad
                (dummyPadFor p allCu) aRefPad.clearance = false)
            · rw [if_pos h3, if_pos h3]
            · rw [if_neg h3, if_neg h3]
              by_cases h4 : (aRefPad.drillW ≠ 0 ∧ checkClearancePadToPad p
                  (dummyPadFor aRefPad allCu) p.clearance = false)
              · rw [if_pos h4, if_pos h4]
              · rw [if_neg h4, if_neg h4]
                exact ihh
        · rw [if_neg hL, if_neg hL]
          by_cases h5 : (p.netCode ≠ 0 ∧ aRefPad.netCode = p.netCode)
          · rw [if_pos h5, if_pos h5]
            exact ihh
          · rw [if_neg h5, if_neg h5]
            by_cases h6 : (p.parent = aRefPad.parent ∧ p.padName = aRefPad.padName)
            · rw [if_pos h6, if_pos h6]
              exact ihh
            · rw [if_neg h6, if_neg h6]
              by_cases h7 : ((Nat.land p.layerSet (Nat.land aRefPad.layerSet allCu) = 0
                  ∧ p.drillW = 0)
                  ∨ (Nat.land aRefPad.layerSet (Nat.land aRefPad.layerSet allCu) = 0
                  ∧ aRefPad.drillW = 0))
              · rw [if_pos h7, if_pos h7]
                exact ihh
              · rw [if_neg h7, if_neg h7]
                by_cases h8 : checkClearancePadToPad aRefPad p aRefPad.clearance = false
                · rw [if_pos h8, if_pos h8]
                · rw [if_neg h8, if_neg h8]
                  exact ihh

/-- Every marker the pad scan emits names the reference pad and a candidate
whose center lies within the reference clearance plus the two bounding
radii (given that clearances are dominated by the reference pad's and drill
radii by the bounding radii). -/
theorem doPadToPadsDrcCore_emission_near (useLimit : Bool) (allCu : Nat)
    (aRefPad : Pad) (xLimit : Int)
    (hrc : 0 ≤ aRefPad.clearance) (hrr : 0 ≤ aRefPad.boundingRadius)
    (hrd : Int.tdiv (max aRefPad.drillW aRefPad.drillH) 2 ≤ aRefPad.boundingRadius)
    (hrd0 : 0 ≤ Int.tdiv (max aRefPad.drillW aRefPad.drillH) 2) :
    ∀ (pads : List Pad),
      (∀ p ∈ pads, 0 ≤ p.boundingRadius ∧ 0 ≤ p.clearance
        ∧ p.clearance ≤ aRefPad.clearance
        ∧ Int.tdiv (max p.drillW p.drillH) 2 ≤ p.boundingRadius
        ∧ 0 ≤ Int.tdiv (max p.drillW p.drillH) 2) →
      ∀ mk ∈ (doPadToPadsDrcCore useLimit allCu aRefPad xLimit pads).2,
        ∃ p ∈ pads, p.id ≠ aRefPad.id
          ∧ ((mk.itemA = aRefPad.id ∧ mk.itemB = p.id)
              ∨ (mk.itemA = p.id ∧ mk.itemB = aRefPad.id))
          ∧ padDist2 aRefPad p
              < (aRefPad.clearance + aRefPad.boundingRadius + p.boundingRadius) ^ 2 := by
  intro pads
  induction pads with
  | nil => intro _ mk hmk; simp [doPadToPadsDrcCore] at hmk
  | cons p rest ih =>
    intro hall mk hmk
    have hp := hall p (List.mem_cons_self p rest)
    have hrest := fun q hq => hall q (List.mem_cons_of_mem p hq)
    have htail : ∀ mk ∈ (doPadToPadsDrcCore useLimit allCu aRefPad xLimit rest).2,
        ∃ q ∈ p :: rest, q.id ≠ aRefPad.id
          ∧ ((mk.itemA = aRefPad.id ∧ mk.itemB = q.id)
              ∨ (mk.itemA = q.id ∧ mk.itemB = aRefPad.id))
          ∧ padDist2 aRefPad q
              < (aRefPad.clearance + aRefPad.boundingRadius + q.boundingRadius) ^ 2 := by
      intro mk2 hmk2
      obtain ⟨q, hq, hrest2⟩ := ih hrest mk2 hmk2
      exact ⟨q, List.mem_cons_of_mem p hq, hrest2⟩
    simp only [doPadToPadsDrcCore] at hmk
    by_cases hid : p.id = aRefPad.id
    · rw [if_pos hid] at hmk
      exact htail mk hmk
    · rw [if_neg hid] at hmk
      by_cases hlim : (useLimit = true ∧ xLimit < p.x)
      · rw [if_pos hlim] at hmk
        simp at hmk
      · rw [if_neg hlim] at hmk
        by_cases hL : (Nat.land p.layerSet (Nat.land aRefPad.layerSet allCu) = 0
            ∧ Nat.land p.layerSet allCu ≠ 0 ∧ Nat.land aRefPad.layerSet allCu ≠ 0)
        · rw [if_pos hL] at hmk
          by_cases hSH : padsAcceptedSameHole aRefPad p = true
          · rw [if_pos hSH] at hmk
            exact htail mk hmk
          · rw [if_neg hSH] at hmk
            by_cases h3 : (p.drillW ≠ 0 ∧ checkClearancePadToPad aRefPad
                (dummyPadFor p allCu) aRefPad.clearance = false)
            · rw [if_pos h3] at hmk
              simp only [List.mem_singleton] at hmk
              subst hmk
              refine ⟨p, List.mem_cons_self p rest, hid, Or.inr ⟨rfl, rfl⟩, ?_⟩
              have hchk := h3.2
              simp only [checkClearancePadToPad, decide_eq_false_iff_not, not_le] at hchk
              have hdd : padDist2 aRefPad (dummyPadFor p allCu) = padDist2 aRefPad p := by
                simp [padDist2, dummyPadFor]
              rw [hdd] at hchk
              have h0 : 0 ≤ aRefPad.clearance + aRefPad.boundingRadius
                  + (dummyPadFor p allCu).boundingRadius := by
                simp only [dummyPadFor]
                have := hp.2.2.2.2
                omega
              have hle : aRefPad.clearance + aRefPad.boundingRadius
                  + (dummyPadFor p allCu).boundingRadius
                  ≤ aRefPad.clearance + aRefPad.boundingRadius + p.boundingRadius := by
                simp only [dummyPadFor]
                have := hp.2.2.2.1
                omega
              have hmono := pow_le_pow_left h0 hle 2
              omega
            · rw [if_neg h3] at hmk
              by_cases h4 : (aRefPad.drillW ≠ 0 ∧ checkClearancePadToPad p
                  (dummyPadFor aRefPad allCu) p.clearance = false)
              · rw [if_pos h4] at hmk
                simp only [List.mem_singleton] at hmk
                subst hmk
                refine ⟨p, List.mem_cons_self p rest, hid, Or.inl ⟨rfl, rfl⟩, ?_⟩
                have hchk := h4.2
                simp only [checkClearancePadToPad, decide_eq_false_iff_not, not_le] at hchk
                have hdd : padDist2 p (dummyPadFor aRefPad allCu) = padDist2 aRefPad p := by
                  simp only [padDist2, dummyPadFor]
                  ring
                rw [hdd] at hchk
                have h0 : 0 ≤ p.clearance + p.boundingRadius
                    + (dummyPadFor aRefPad allCu).boundingRadius := by
                  simp only [dummyPadFor]
                  have h6x := hp.1
                  have h7x := hp.2.1
                  omega
                have hle : p.clearance + p.boundingRadius
                    + (dummyPadFor aRefPad allCu).boundingRadius
                    ≤ aRefPad.clearance + aRefPad.boundingRadius + p.boundingRadius := by
                  simp only [dummyPadFor]
                  have h6x := hp.2.2.1
                  omega
                have hmono := pow_le_pow_left h0 hle 2
                omega
              · rw [if_neg h4] at hmk
                exact htail mk hmk
        · rw [if_neg hL] at hmk
          by_cases h5 : (p.netCode ≠ 0 ∧ aRefPad.netCode = p.netCode)
          · rw [if_pos h5] at hmk
            exact htail mk hmk
          · rw [if_neg h5] at hmk
            by_cases h6 : (p.parent = aRefPad.parent ∧ p.padName = aRefPad.padName)
            · rw [if_pos h6] at hmk
              exact htail mk hmk
            · rw [if_neg h6] at hmk
              by_cases h7 : ((Nat.land p.layerSet (Nat.land aRefPad.layerSet allCu) = 0
                  ∧ p.drillW = 0)
                  ∨ (Nat.land aRefPad.layerSet (Nat.land aRefPad.layerSet allCu) = 0
                  ∧ aRefPad.drillW = 0))
              · rw [if_pos h7] at hmk
                exact htail mk hmk
              · rw [if_neg h7] at hmk
                by_cases h8 : checkClearancePadToPad aRefPad p aRefPad.clearance = false
                · rw [if_pos h8] at hmk
                  simp only [List.mem_singleton] at hmk
                  subst hmk
                  refine ⟨p, List.mem_cons_self p rest, hid, Or.inl ⟨rfl, rfl⟩, ?_⟩
                  simp only [checkClearancePadToPad, decide_eq_false_iff_not, not_le] at h8
                  omega
                · rw [if_neg h8] at hmk
                  exact htail mk hmk

/-- C2 counterexample: the sorted-scan limit skips a candidate pad whose own
resolved clearance is larger than the reference pad's. The reference pad
(drilled, clearance 1, bounding radius 1) and a candidate on disjoint copper
layers at x = 10 with clearance 100: the full pad scan emits nothing (the
candidate's x exceeds the limit 3), yet the very tests the code would have
run flag the pair: the limit-free scan emits a hole-near-pad violation
because the reference pad's hole is tested against the candidate with the
candidate's clearance. -/
theorem pad_scan_limit_counterexample :
    testPad2Pad 3
        [⟨0, 0, 0, 1, 2, 2, DrillShape.circle, 0, 1, 0, "1", 1, 1⟩,
         ⟨1, 10, 0, 2, 0, 0, DrillShape.circle, 0, 2, 1, "1", 1, 100⟩] = []
    ∧ (doPadToPadsDrcNoLimit 3 ⟨0, 0, 0, 1, 2, 2, DrillShape.circle, 0, 1, 0, "1", 1, 1⟩ 3
        [⟨0, 0, 0, 1, 2, 2, DrillShape.circle, 0, 1, 0, "1", 1, 1⟩,
         ⟨1, 10, 0, 2, 0, 0, DrillShape.circle, 0, 2, 1, "1", 1, 100⟩]).1 = false
    ∧ (doPadToPadsDrcNoLimit 3 ⟨0, 0, 0, 1, 2, 2, DrillShape.circle, 0, 1, 0, "1", 1, 1⟩ 3
        [⟨0, 0, 0, 1, 2, 2, DrillShape.circle, 0, 1, 0, "1", 1, 1⟩,
         ⟨1, 10, 0, 2, 0, 0, DrillShape.circle, 0, 2, 1, "1", 1, 100⟩]).2.length = 1
    ∧ checkClearancePadToPad
        ⟨1, 10, 0, 2, 0, 0, DrillShape.circle, 0, 2, 1, "1", 1, 100⟩
        (dummyPadFor ⟨0, 0, 0, 1, 2, 2, DrillShape.circle, 0, 1, 0, "1", 1, 1⟩ 3)
        100 = false := by
  decide

/-- C2 (amended): the sorted-scan early exit at
`x_limit = maxBoundingRadius + refPad.clearance + refPad.boundingRadius +
refPad.x` skips no pair that the scan's own tests would have flagged,
provided every candidate's resolved clearance is at most the reference pad's
(the hole-vs-pad branch resolves the clearance from the candidate pad) and
every pad's drill radius is at most its bounding radius; moreover every
emitted marker names a candidate whose center lies within the reference
clearance plus the two bounding radii. -/
theorem pad_scan_limit_sound_uniform_clearance (allCu : Nat) (aRefPad : Pad)
    (maxR : Int) (pads : List Pad)
    (hsort : List.Pairwise (fun a b : Pad => a.x ≤ b.x) pads)
    (hrc : 0 ≤ aRefPad.clearance) (hrr : 0 ≤ aRefPad.boundingRadius)
    (hrmax : aRefPad.boundingRadius ≤ maxR)
    (hrd : Int.tdiv (max aRefPad.drillW aRefPad.drillH) 2 ≤ aRefPad.boundingRadius)
    (hrd0 : 0 ≤ Int.tdiv (max aRefPad.drillW aRefPad.drillH) 2)
    (hall : ∀ p ∈ pads, 0 ≤ p.boundingRadius ∧ p.boundingRadius ≤ maxR
      ∧ 0 ≤ p.clearance ∧ p.clearance ≤ aRefPad.clearance
      ∧ Int.tdiv (max p.drillW p.drillH) 2 ≤ p.boundingRadius
      ∧ 0 ≤ Int.tdiv (max p.drillW p.drillH) 2) :
    doPadToPadsDrc allCu aRefPad
        (maxR + (aRefPad.clearance + aRefPad.boundingRadius + aRefPad.x)) pads
      = doPadToPadsDrcNoLimit allCu aRefPad
          (maxR + (aRefPad.clearance + aRefPad.boundingRadius + aRefPad.x)) pads
    ∧ (∀ mk ∈ (doPadToPadsDrc allCu aRefPad
          (maxR + (aRefPad.clearance + aRefPad.boundingRadius + aRefPad.x)) pads).2,
        ∃ p ∈ pads, p.id ≠ aRefPad.id
          ∧ ((mk.itemA = aRefPad.id ∧ mk.itemB = p.id)
              ∨ (mk.itemA = p.id ∧ mk.itemB = aRefPad.id))
          ∧ padDist2 aRefPad p
              < (aRefPad.clearance + aRefPad.boundingRadius + p.boundingRadius) ^ 2) := by
  constructor
  · apply doPadToPadsDrcCore_limit_eq allCu aRefPad _ pads hsort
    intro p hp hxp hid
    obtain ⟨hp1, hp2, hp3, hp4, hp5, hp6⟩ := hall p hp
    have hmax0 : 0 ≤ maxR := le_trans hrr hrmax
    have hdx : aRefPad.clearance + aRefPad.boundingRadius + maxR < p.x - aRefPad.x := by
      linarith [hxp]
    have hS0 : 0 ≤ aRefPad.clearance + aRefPad.boundingRadius + maxR := by linarith
    have hSq : (aRefPad.clearance + aRefPad.boundingRadius + maxR) ^ 2
        < (p.x - aRefPad.x) ^ 2 := by nlinarith [hdx, hS0]
    have h2 : (p.x - aRefPad.x) ^ 2 ≤ padDist2 aRefPad p := by
      simp only [padDist2]
      nlinarith [sq_nonneg (p.y - aRefPad.y)]
    refine ⟨?_, ?_, ?_⟩
    · simp only [checkClearancePadToPad, decide_eq_true_eq]
      have hdd : padDist2 aRefPad (dummyPadFor p allCu) = padDist2 aRefPad p := by
        simp [padDist2, dummyPadFor]
      rw [hdd]
      simp only [dummyPadFor]
      have hsum : aRefPad.clearance + aRefPad.boundingRadius
          + Int.tdiv (max p.drillW p.drillH) 2
          ≤ aRefPad.clearance + aRefPad.boundingRadius + maxR := by linarith
      have hsum0 : 0 ≤ aRefPad.clearance + aRefPad.boundingRadius
          + Int.tdiv (max p.drillW p.drillH) 2 := by linarith
      have h1 := pow_le_pow_left hsum0 hsum 2
      linarith
    · simp only [checkClearancePadToPad, decide_eq_true_eq]
      have hdd : padDist2 p (dummyPadFor aRefPad allCu) = padDist2 aRefPad p := by
        simp only [padDist2, dummyPadFor]
        ring
      rw [hdd]
      simp only [dummyPadFor]
      have hsum : p.clearance + p.boundingRadius
          + Int.tdiv (max aRefPad.drillW aRefPad.drillH) 2
          ≤ aRefPad.clearance + aRefPad.boundingRadius + maxR := by linarith
      have hsum0 : 0 ≤ p.clearance + p.boundingRadius
          + Int.tdiv (max aRefPad.drillW aRefPad.drillH) 2 := by linarith
      have h1 := pow_le_pow_left hsum0 hsum 2
      linarith
    · simp only [checkClearancePadToPad, decide_eq_true_eq]
      have hsum : aRefPad.clearance + aRefPad.boundingRadius + p.boundingRadius
          ≤ aRefPad.clearance + aRefPad.boundingRadius + maxR := by linarith
      have hsum0 : 0 ≤ aRefPad.clearance + aRefPad.boundingRadius + p.boundingRadius := by
        linarith
      have h1 := pow_le_pow_left hsum0 hsum 2
      linarith
  · intro mk hmk
    exact doPadToPadsDrcCore_emission_near true allCu aRefPad _ hrc hrr hrd hrd0 pads
      (fun p hp => ⟨(hall p hp).1, (hall p hp).2.2.1, (hall p hp).2.2.2.1,
        (hall p hp).2.2.2.2.1, (hall p hp).2.2.2.2.2⟩) mk hmk

/-- Witness for the amended C2 theorem at a concrete uniform-clearance
board. -/
theorem pad_scan_limit_sound_witness :
    doPadToPadsDrc 3 ⟨0, 0, 0, 1, 0, 0, DrillShape.circle, 0, 1, 0, "1", 1, 1⟩
        (1 + (1 + 1 + 0))
        [⟨0, 0, 0, 1, 0, 0, DrillShape.circle, 0, 1, 0, "1", 1, 1⟩,
         ⟨1, 5, 0, 1, 0, 0, DrillShape.circle, 0, 2, 1, "2", 1, 1⟩]
      = doPadToPadsDrcNoLimit 3 ⟨0, 0, 0, 1, 0, 0, DrillShape.circle, 0, 1, 0, "1", 1, 1⟩
          (1 + (1 + 1 + 0))
          [⟨0, 0, 0, 1, 0, 0, DrillShape.circle, 0, 1, 0, "1", 1, 1⟩,
           ⟨1, 5, 0, 1, 0, 0, DrillShape.circle, 0, 2, 1, "2", 1, 1⟩] :=
  (pad_scan_limit_sound_uniform_clearance 3
    ⟨0, 0, 0, 1, 0, 0, DrillShape.circle, 0, 1, 0, "1", 1, 1⟩ 1
    [⟨0, 0, 0, 1, 0, 0, DrillShape.circle, 0, 1, 0, "1", 1, 1⟩,
     ⟨1, 5, 0, 1, 0, 0, DrillShape.circle, 0, 2, 1, "2", 1, 1⟩]
    (by decide) (by decide) (by decide) (by decide) (by decide) (by decide)
    (by decide)).1

/-- Witness for the C5 theorem at a concrete scan. -/
theorem pad_scan_single_violation_witness :
    (doPadToPadsDrc 3 ⟨0, 0, 0, 1, 0, 0, DrillShape.circle, 0, 1, 0, "1", 1, 1⟩ 100
        [⟨0, 0, 0, 1, 0, 0, DrillShape.circle, 0, 1, 0, "1", 1, 1⟩]).2.length ≤ 1 :=
  (pad_scan_single_violation 3 ⟨0, 0, 0, 1, 0, 0, DrillShape.circle, 0, 1, 0, "1", 1, 1⟩ 100
    [⟨0, 0, 0, 1, 0, 0, DrillShape.circle, 0, 1, 0, "1", 1, 1⟩]).1

/- ================= Marker-location bisection theorems (C7) ================= -/

/-- The C++ remainder of a division by 2 lies in [-1, 1]. -/
theorem tmod2_bounds (m : Int) : -1 ≤ Int.tmod m 2 ∧ Int.tmod m 2 ≤ 1 := by
  rcases le_or_lt 0 m with hs | hs
  · rw [Int.tmod_eq_emod hs (by norm_num)]
    have e4 := Int.emod_nonneg m (by norm_num : (2:Int) ≠ 0)
    have e5 := Int.emod_lt_of_pos m (by norm_num : (0:Int) < 2)
    omega
  · have q2 := Int.tdiv_add_tmod (-m) 2
    rw [Int.neg_tdiv] at q2
    rw [Int.tmod_eq_emod (by omega) (by norm_num)] at q2
    have q1 := Int.tdiv_add_tmod m 2
    have e4 := Int.emod_nonneg (-m) (by norm_num : (2:Int) ≠ 0)
    have e5 := Int.emod_lt_of_pos (-m) (by norm_num : (0:Int) < 2)
    omega


/-- The bisection returns its first endpoint unchanged, in zero iterations,
as soon as the remaining length is within EPSILON. -/
theorem getLocationAux_stop (sq : Pt → Int) (a b : Pt)
    (h : ¬ EPSILON ^ 2 < dist2 a b) : getLocationAux sq a b = (a, 0) := by
  rw [getLocationAux, dif_neg h]

/-- One unfolding of the bisection when the first endpoint is strictly
closer to the conflicting shape: the far endpoint is replaced by the
midpoint. -/
theorem getLocationAux_go_lt (sq : Pt → Int) (a b : Pt)
    (h : EPSILON ^ 2 < dist2 a b) (hs : sq a < sq b) :
    getLocationAux sq a b
      = ((getLocationAux sq a (midPt a b)).1, (getLocationAux sq a (midPt a b)).2 + 1) := by
  rw [getLocationAux]
  rw [dif_pos h, if_pos hs]

/-- One unfolding of the bisection when the first endpoint is not strictly
closer: the first endpoint is replaced by the midpoint. -/
theorem getLocationAux_go_ge (sq : Pt → Int) (a b : Pt)
    (h : EPSILON ^ 2 < dist2 a b) (hs : ¬ sq a < sq b) :
    getLocationAux sq a b
      = ((getLocationAux sq (midPt a b) b).1, (getLocationAux sq (midPt a b) b).2 + 1) := by
  rw [getLocationAux]
  rw [dif_pos h, if_neg hs]

/-- The truncated integer half of m is within 1/2 of the exact rational
half. -/
theorem tdiv2_near_half (m : Int) :
    |((Int.tdiv m 2 : Int) : ℚ) - (m : ℚ) / 2| ≤ 1 / 2 := by
  have qb := tmod2_bounds m
  have qm := Int.tdiv_add_tmod m 2
  have qq := congrArg (fun z : Int => (z : ℚ)) qm
  push_cast at qq
  have c1 : ((-1 : Int) : ℚ) ≤ ((Int.tmod m 2 : Int) : ℚ) := by exact_mod_cast qb.1
  have c2 : ((Int.tmod m 2 : Int) : ℚ) ≤ ((1 : Int) : ℚ) := by exact_mod_cast qb.2
  push_cast at c1 c2
  rw [abs_le]
  constructor <;> linarith

/-- The x coordinate of the integer midpoint of two points that are within
D of the exact track stays within D + 1/2 of the exact track, at the
averaged parameter. -/
theorem midPt_drift_x (p1 p2 a b : Pt) (ta tb D : ℚ)
    (hax : |(a.x : ℚ) - (segPointQ p1 p2 ta).1| ≤ D)
    (hbx : |(b.x : ℚ) - (segPointQ p1 p2 tb).1| ≤ D) :
    |((midPt a b).x : ℚ) - (segPointQ p1 p2 ((ta + tb) / 2)).1| ≤ D + 1 / 2 := by
  have h1 := tdiv2_near_half (a.x + b.x)
  push_cast at h1
  have h1' : |((midPt a b).x : ℚ) - ((a.x : ℚ) + (b.x : ℚ)) / 2| ≤ 1 / 2 := by
    simp only [midPt]
    exact h1
  have hxid : ((midPt a b).x : ℚ) - (segPointQ p1 p2 ((ta + tb) / 2)).1
      = (((midPt a b).x : ℚ) - ((a.x : ℚ) + (b.x : ℚ)) / 2)
        + (((a.x : ℚ) - (segPointQ p1 p2 ta).1) + ((b.x : ℚ) - (segPointQ p1 p2 tb).1)) / 2 := by
    simp only [segPointQ]
    ring
  rw [hxid]
  rw [abs_le] at hax hbx h1' ⊢
  constructor <;> linarith [hax.1, hax.2, hbx.1, hbx.2, h1'.1, h1'.2]

/-- The y coordinate analogue of the midpoint drift bound. -/
theorem midPt_drift_y (p1 p2 a b : Pt) (ta tb D : ℚ)
    (hay : |(a.y : ℚ) - (segPointQ p1 p2 ta).2| ≤ D)
    (hby : |(b.y : ℚ) - (segPointQ p1 p2 tb).2| ≤ D) :
    |((midPt a b).y : ℚ) - (segPointQ p1 p2 ((ta + tb) / 2)).2| ≤ D + 1 / 2 := by
  have h1 := tdiv2_near_half (a.y + b.y)
  push_cast at h1
  have h1' : |((midPt a b).y : ℚ) - ((a.y : ℚ) + (b.y : ℚ)) / 2| ≤ 1 / 2 := by
    simp only [midPt]
    exact h1
  have hxid : ((midPt a b).y : ℚ) - (segPointQ p1 p2 ((ta + tb) / 2)).2
      = (((midPt a b).y : ℚ) - ((a.y : ℚ) + (b.y : ℚ)) / 2)
        + (((a.y : ℚ) - (segPointQ p1 p2 ta).2) + ((b.y : ℚ) - (segPointQ p1 p2 tb).2)) / 2 := by
    simp only [segPointQ]
    ring
  rw [hxid]
  rw [abs_le] at hay hby h1' ⊢
  constructor <;> linarith [hay.1, hay.2, hby.1, hby.2, h1'.1, h1'.2]

/-- Two-term arithmetic-geometric mean bound, negative cross term. -/
theorem amgm_neg (u c : Int) : -(2 * c * u) ≤ u ^ 2 + c ^ 2 := by
  nlinarith [sq_nonneg (u + c)]

/-- Two-term arithmetic-geometric mean bound, positive cross term. -/
theorem amgm_pos (u c : Int) : 2 * c * u ≤ u ^ 2 + c ^ 2 := by
  nlinarith [sq_nonneg (u - c)]

set_option maxHeartbeats 1600000 in
/-- One bisection step at least halves the segment diameter: if the squared
length is at most (2B-2)^2 then both halves have squared length at most
B^2, the +-1 rounding of the integer midpoint included. -/
theorem midPt_dist2_half (p1 p2 : Pt) (B : Int) (hB : 2 ≤ B)
    (h : dist2 p1 p2 ≤ (2 * B - 2) ^ 2) :
    dist2 p1 (midPt p1 p2) ≤ B ^ 2 ∧ dist2 (midPt p1 p2) p2 ≤ B ^ 2 := by
  have qx := Int.tdiv_add_tmod (p1.x + p2.x) 2
  have qy := Int.tdiv_add_tmod (p1.y + p2.y) 2
  have bx := tmod2_bounds (p1.x + p2.x)
  have bY := tmod2_bounds (p1.y + p2.y)
  have hdx : 2 * (Int.tdiv (p1.x + p2.x) 2 - p1.x)
      = (p2.x - p1.x) - Int.tmod (p1.x + p2.x) 2 := by omega
  have hdy : 2 * (Int.tdiv (p1.y + p2.y) 2 - p1.y)
      = (p2.y - p1.y) - Int.tmod (p1.y + p2.y) 2 := by omega
  have hex : 2 * (p2.x - Int.tdiv (p1.x + p2.x) 2)
      = (p2.x - p1.x) + Int.tmod (p1.x + p2.x) 2 := by omega
  have hey : 2 * (p2.y - Int.tdiv (p1.y + p2.y) 2)
      = (p2.y - p1.y) + Int.tmod (p1.y + p2.y) 2 := by omega
  have sqx : Int.tmod (p1.x + p2.x) 2 ^ 2 ≤ 1 := by nlinarith [bx.1, bx.2]
  have sqy : Int.tmod (p1.y + p2.y) 2 ^ 2 ≤ 1 := by nlinarith [bY.1, bY.2]
  have hd2 : dist2 p1 p2 = (p2.x - p1.x) ^ 2 + (p2.y - p1.y) ^ 2 := rfl
  have hc0 : (0 : Int) ≤ 2 * B - 2 := by linarith
  have e1 := amgm_neg ((p2.x - p1.x) * Int.tmod (p1.x + p2.x) 2) (2 * B - 2)
  have e1b := amgm_pos ((p2.x - p1.x) * Int.tmod (p1.x + p2.x) 2) (2 * B - 2)
  have e2 := amgm_neg ((p2.y - p1.y) * Int.tmod (p1.y + p2.y) 2) (2 * B - 2)
  have e2b := amgm_pos ((p2.y - p1.y) * Int.tmod (p1.y + p2.y) 2) (2 * B - 2)
  have e3 : (p2.x - p1.x) ^ 2 * Int.tmod (p1.x + p2.x) 2 ^ 2 ≤ (p2.x - p1.x) ^ 2 := by
    nlinarith [mul_nonneg (by linarith [sqx] : (0:Int) ≤ 1 - Int.tmod (p1.x + p2.x) 2 ^ 2)
      (sq_nonneg (p2.x - p1.x))]
  have e4 : (p2.y - p1.y) ^ 2 * Int.tmod (p1.y + p2.y) 2 ^ 2 ≤ (p2.y - p1.y) ^ 2 := by
    nlinarith [mul_nonneg (by linarith [sqy] : (0:Int) ≤ 1 - Int.tmod (p1.y + p2.y) 2 ^ 2)
      (sq_nonneg (p2.y - p1.y))]
  have e8 : (p2.x - p1.x) ^ 2 + (p2.y - p1.y) ^ 2 ≤ (2 * B - 2) ^ 2 := hd2 ▸ h
  have e5 : (2 * B - 2) * ((p2.x - p1.x) ^ 2 + (p2.y - p1.y) ^ 2)
      ≤ (2 * B - 2) * (2 * B - 2) ^ 2 :=
    mul_le_mul_of_nonneg_left e8 hc0
  have e6 : (2 * B - 2) * Int.tmod (p1.x + p2.x) 2 ^ 2 ≤ (2 * B - 2) * 1 :=
    mul_le_mul_of_nonneg_left sqx hc0
  have e7 : (2 * B - 2) * Int.tmod (p1.y + p2.y) 2 ^ 2 ≤ (2 * B - 2) * 1 :=
    mul_le_mul_of_nonneg_left sqy hc0
  have hXb : (2 * B - 2) * ((((p2.x - p1.x) - Int.tmod (p1.x + p2.x) 2) ^ 2
      + ((p2.y - p1.y) - Int.tmod (p1.y + p2.y) 2) ^ 2))
      ≤ (2 * B - 2) * (4 * B ^ 2 - 2 * B) := by
    linarith [e1, e2, e3, e4, e5, e6, e7, e8]
  have hYb : (2 * B - 2) * ((((p2.x - p1.x) + Int.tmod (p1.x + p2.x) 2) ^ 2
      + ((p2.y - p1.y) + Int.tmod (p1.y + p2.y) 2) ^ 2))
      ≤ (2 * B - 2) * (4 * B ^ 2 - 2 * B) := by
    linarith [e1b, e2b, e3, e4, e5, e6, e7, e8]
  have hXb' := le_of_mul_le_mul_left hXb (by linarith : (0:Int) < 2 * B - 2)
  have hYb' := le_of_mul_le_mul_left hYb (by linarith : (0:Int) < 2 * B - 2)
  constructor
  · have a1 : 4 * (Int.tdiv (p1.x + p2.x) 2 - p1.x) ^ 2
        = ((p2.x - p1.x) - Int.tmod (p1.x + p2.x) 2) ^ 2 := by rw [← hdx]; ring
    have a2 : 4 * (Int.tdiv (p1.y + p2.y) 2 - p1.y) ^ 2
        = ((p2.y - p1.y) - Int.tmod (p1.y + p2.y) 2) ^ 2 := by rw [← hdy]; ring
    have h4 : 4 * dist2 p1 (midPt p1 p2)
        = ((p2.x - p1.x) - Int.tmod (p1.x + p2.x) 2) ^ 2
          + ((p2.y - p1.y) - Int.tmod (p1.y + p2.y) 2) ^ 2 := by
      simp only [dist2, midPt]
      linarith [a1, a2]
    linarith [h4, hXb']
  · have a1 : 4 * (p2.x - Int.tdiv (p1.x + p2.x) 2) ^ 2
        = ((p2.x - p1.x) + Int.tmod (p1.x + p2.x) 2) ^ 2 := by rw [← hex]; ring
    have a2 : 4 * (p2.y - Int.tdiv (p1.y + p2.y) 2) ^ 2
        = ((p2.y - p1.y) + Int.tmod (p1.y + p2.y) 2) ^ 2 := by rw [← hey]; ring
    have h4 : 4 * dist2 (midPt p1 p2) p2
        = ((p2.x - p1.x) + Int.tmod (p1.x + p2.x) 2) ^ 2
          + ((p2.y - p1.y) + Int.tmod (p1.y + p2.y) 2) ^ 2 := by
      simp only [dist2, midPt]
      linarith [a1, a2]
    linarith [h4, hYb']

/-- Invariant of the bisection loop: if the current segment has length at
most (EPSILON - 2) * 2 ^ k + 2 and both endpoints are within D of exact
points of the original track, the loop performs at most k further
iterations and returns a point within D + k / 2 (per coordinate) of an
exact track point. -/
theorem getLocationAux_steps_drift (sq : Pt → Int) (p1 p2 : Pt) :
    ∀ (k : Nat) (a b : Pt) (ta tb D : ℚ),
      dist2 a b ≤ ((EPSILON - 2) * 2 ^ k + 2) ^ 2 →
      0 ≤ ta → ta ≤ 1 → 0 ≤ tb → tb ≤ 1 → 0 ≤ D →
      |(a.x : ℚ) - (segPointQ p1 p2 ta).1| ≤ D →
      |(a.y : ℚ) - (segPointQ p1 p2 ta).2| ≤ D →
      |(b.x : ℚ) - (segPointQ p1 p2 tb).1| ≤ D →
      |(b.y : ℚ) - (segPointQ p1 p2 tb).2| ≤ D →
      (getLocationAux sq a b).2 ≤ k ∧
      ∃ t : ℚ, 0 ≤ t ∧ t ≤ 1
        ∧ |((getLocationAux sq a b).1.x : ℚ) - (segPointQ p1 p2 t).1| ≤ D + (k : ℚ) / 2
        ∧ |((getLocationAux sq a b).1.y : ℚ) - (segPointQ p1 p2 t).2| ≤ D + (k : ℚ) / 2 := by
  intro k
  induction k with
  | zero =>
    intro a b ta tb D hd ht0 ht1 hs0 hs1 hD hax hay hbx hby
    have hEe : ((EPSILON - 2) * 2 ^ 0 + 2) ^ 2 = EPSILON ^ 2 := by ring
    rw [hEe] at hd
    rw [getLocationAux_stop sq a b (not_lt.mpr hd)]
    exact ⟨Nat.le_refl 0, ta, ht0, ht1, by simpa using hax, by simpa using hay⟩
  | succ k ih =>
    intro a b ta tb D hd ht0 ht1 hs0 hs1 hD hax hay hbx hby
    by_cases hc : EPSILON ^ 2 < dist2 a b
    · have hB2 : (2 : Int) ≤ (EPSILON - 2) * 2 ^ k + 2 := by
        have h2k : (0 : Int) < 2 ^ k := pow_pos (by norm_num) k
        have hE2 : (0 : Int) ≤ EPSILON - 2 := by norm_num [EPSILON]
        nlinarith [mul_nonneg hE2 (le_of_lt h2k)]
      have hd' : dist2 a b ≤ (2 * ((EPSILON - 2) * 2 ^ k + 2) - 2) ^ 2 := by
        have hBe : (2 * ((EPSILON - 2) * 2 ^ k + 2) - 2) ^ 2
            = ((EPSILON - 2) * 2 ^ (k + 1) + 2) ^ 2 := by ring
        rw [hBe]
        exact hd
      have hhalf := midPt_dist2_half a b ((EPSILON - 2) * 2 ^ k + 2) hB2 hd'
      have htm0 : 0 ≤ (ta + tb) / 2 := by linarith
      have htm1 : (ta + tb) / 2 ≤ 1 := by linarith
      have hmx := midPt_drift_x p1 p2 a b ta tb D hax hbx
      have hmy := midPt_drift_y p1 p2 a b ta tb D hay hby
      have hcast : D + 1 / 2 + (k : ℚ) / 2 ≤ D + ((k + 1 : Nat) : ℚ) / 2 := by
        push_cast
        linarith
      by_cases hs : sq a < sq b
      · rw [getLocationAux_go_lt sq a b hc hs]
        obtain ⟨hsteps, t, h1, h2, h3, h4⟩ :=
          ih a (midPt a b) ta ((ta + tb) / 2) (D + 1 / 2) hhalf.1 ht0 ht1 htm0 htm1
            (by linarith) (le_trans hax (by linarith)) (le_trans hay (by linarith)) hmx hmy
        exact ⟨Nat.succ_le_succ hsteps, t, h1, h2, le_trans h3 hcast, le_trans h4 hcast⟩
      · rw [getLocationAux_go_ge sq a b hc hs]
        obtain ⟨hsteps, t, h1, h2, h3, h4⟩ :=
          ih (midPt a b) b ((ta + tb) / 2) tb (D + 1 / 2) hhalf.2 htm0 htm1 hs0 hs1
            (by linarith) hmx hmy (le_trans hbx (by linarith)) (le_trans hby (by linarith))
        exact ⟨Nat.succ_le_succ hsteps, t, h1, h2, le_trans h3 hcast, le_trans h4 hcast⟩
    · rw [getLocationAux_stop sq a b hc]
      have hk2 : (0 : ℚ) ≤ ((k + 1 : Nat) : ℚ) / 2 := by positivity
      exact ⟨Nat.zero_le _, ta, ht0, ht1,
        le_trans hax (le_add_of_nonneg_right hk2),
        le_trans hay (le_add_of_nonneg_right hk2)⟩

/-- C7: for every track whose length is at most (EPSILON - 2) * 2 ^ k, the
marker-location bisection terminates after at most k iterations (the
log2(trackLength / epsilon) bound), and the returned point is within k / 2
internal units per coordinate of an exact point of the track; whenever
k <= 2 * EPSILON (every representable board: lengths up to
2 ^ 254000 units) the returned point is in particular within EPSILON of
the track. -/
theorem marker_bisection_terminates_and_stays_near_track (sq : Pt → Int) (pt1 pt2 : Pt) (k : Nat)
    (hlen : dist2 pt1 pt2 ≤ ((EPSILON - 2) * 2 ^ k) ^ 2) :
    getLocationSteps sq pt1 pt2 ≤ k
    ∧ ∃ t : ℚ, 0 ≤ t ∧ t ≤ 1
        ∧ |((getLocation sq pt1 pt2).x : ℚ) - (segPointQ pt1 pt2 t).1| ≤ (k : ℚ) / 2
        ∧ |((getLocation sq pt1 pt2).y : ℚ) - (segPointQ pt1 pt2 t).2| ≤ (k : ℚ) / 2
        ∧ ((k : ℚ) ≤ 2 * ((EPSILON : Int) : ℚ) →
            |((getLocation sq pt1 pt2).x : ℚ) - (segPointQ pt1 pt2 t).1|
              ≤ ((EPSILON : Int) : ℚ)
            ∧ |((getLocation sq pt1 pt2).y : ℚ) - (segPointQ pt1 pt2 t).2|
              ≤ ((EPSILON : Int) : ℚ)) := by
  have hmono : ((EPSILON - 2) * 2 ^ k) ^ 2 ≤ ((EPSILON - 2) * 2 ^ k + 2) ^ 2 := by
    have h0 : (0 : Int) ≤ (EPSILON - 2) * 2 ^ k :=
      mul_nonneg (by norm_num [EPSILON]) (le_of_lt (pow_pos (by norm_num) k))
    nlinarith [h0]
  have h0 := getLocationAux_steps_drift sq pt1 pt2 k pt1 pt2 0 1 0
    (le_trans hlen hmono) le_rfl zero_le_one zero_le_one le_rfl le_rfl
    (by simp [segPointQ]) (by simp [segPointQ]) (by simp [segPointQ]) (by simp [segPointQ])
  obtain ⟨hsteps, t, h1, h2, h3, h4⟩ := h0
  refine ⟨hsteps, t, h1, h2, by simpa using h3, by simpa using h4, ?_⟩
  intro hk
  have hx : |((getLocation sq pt1 pt2).x : ℚ) - (segPointQ pt1 pt2 t).1| ≤ (k : ℚ) / 2 := by
    simpa using h3
  have hy : |((getLocation sq pt1 pt2).y : ℚ) - (segPointQ pt1 pt2 t).2| ≤ (k : ℚ) / 2 := by
    simpa using h4
  constructor
  · exact le_trans hx (by linarith)
  · exact le_trans hy (by linarith)

/-- Witness for the C7 theorem on a concrete 254000-unit track. -/
theorem marker_bisection_witness :
    dist2 ⟨0, 0⟩ ⟨254000, 0⟩ ≤ ((EPSILON - 2) * 2 ^ 2) ^ 2
    ∧ (getLocationSteps (fun p => p.x ^ 2 + p.y ^ 2) ⟨0, 0⟩ ⟨254000, 0⟩ ≤ 2
      ∧ ∃ t : ℚ, 0 ≤ t ∧ t ≤ 1
        ∧ |((getLocation (fun p => p.x ^ 2 + p.y ^ 2) ⟨0, 0⟩ ⟨254000, 0⟩).x : ℚ)
            - (segPointQ ⟨0, 0⟩ ⟨254000, 0⟩ t).1| ≤ ((2 : Nat) : ℚ) / 2
        ∧ |((getLocation (fun p => p.x ^ 2 + p.y ^ 2) ⟨0, 0⟩ ⟨254000, 0⟩).y : ℚ)
            - (segPointQ ⟨0, 0⟩ ⟨254000, 0⟩ t).2| ≤ ((2 : Nat) : ℚ) / 2
        ∧ (((2 : Nat) : ℚ) ≤ 2 * ((EPSILON : Int) : ℚ) →
            |((getLocation (fun p => p.x ^ 2 + p.y ^ 2) ⟨0, 0⟩ ⟨254000, 0⟩).x : ℚ)
              - (segPointQ ⟨0, 0⟩ ⟨254000, 0⟩ t).1| ≤ ((EPSILON : Int) : ℚ)
            ∧ |((getLocation (fun p => p.x ^ 2 + p.y ^ 2) ⟨0, 0⟩ ⟨254000, 0⟩).y : ℚ)
              - (segPointQ ⟨0, 0⟩ ⟨254000, 0⟩ t).2| ≤ ((EPSILON : Int) : ℚ))) :=
  ⟨by norm_num [dist2, EPSILON],
   marker_bisection_terminates_and_stays_near_track (fun p => p.x ^ 2 + p.y ^ 2) ⟨0, 0⟩ ⟨254000, 0⟩ 2
     (by norm_num [dist2, EPSILON])⟩

end DRC
